import Mathlib

/-!
# shrpx HttpsUpstream: the client-facing HTTP/1.1 bridge

A shallow embedding of `examples/shrpx_https_upstream.cc`.

* Byte strings (`std::string`, evbuffer contents) are lists of characters.
* Pointers to `Downstream` objects are natural numbers; the heap maps live
  pointers to objects, and `delete` moves the object to a ghost log so that
  the state in which an exchange was retired can be inspected.
* Dereferencing a dead pointer, `front()`/`back()`/`pop_front()` on an empty
  deque and a failing `assert` have no defined behaviour: the operations
  return `none` there.
* The tokenizer (libhtparse), the configuration, the status-string table and
  the error-page generator are external; they are parameters.
* Sequences of callbacks are runs of a transition system (`step`,
  `Reachable`) that tracks the tokenizer's place in the request grammar.
-/

namespace shrpx

/-! ## Text -/

/-- Byte strings: the contents of a `std::string` or of an evbuffer. -/
abbrev Bytes := List Char

/-- The two bytes `\r\n`. -/
def CRLF : Bytes := "\r\n".toList

/-- The C string a `std::string` denotes through `c_str()`: the bytes up to
the first NUL byte. -/
def c_str (s : Bytes) : Bytes := s.takeWhile (fun c => c != Char.ofNat 0)

/-- Modelled from the spec: `util::lowcase` (util.h is not part of the
sources), the ASCII lower-case letter of an ASCII upper-case letter, any other
byte unchanged; the spec asks for case-insensitive header names. -/
def util.lowcase (c : Char) : Char :=
  if 65 ≤ c.toNat ∧ c.toNat ≤ 90 then Char.ofNat (c.toNat + 32) else c

/-- Modelled from the spec: `util::strieq` (util.h is not part of the
sources), equality of two C strings up to ASCII letter case. -/
def util.strieq (a b : Bytes) : Bool :=
  a.map util.lowcase == b.map util.lowcase

/-! ## External collaborators -/

/-- The read-only collaborators of the bridge: `get_config()->server_name`,
`http::get_status_string`, `http::create_error_html` and the constant
`SHRPX_ERR_HTTP_PARSE` of shrpx_error.h. -/
structure Env where
  server_name : Bytes
  get_status_string : Int → Bytes
  create_error_html : Int → Bytes
  SHRPX_ERR_HTTP_PARSE : Int

/-! ## Data model -/

/-- The three values of `Downstream::request_state_` and
`Downstream::response_state_`. -/
inductive IOState where
  | INITIAL
  | HEADER_COMPLETE
  | MSG_COMPLETE
  deriving DecidableEq, Repr

/-- A header list (`Headers`): ordered name/value pairs. -/
abbrev Headers := List (Bytes × Bytes)

/-- Modelled from the spec: the `Downstream` object (shrpx_downstream.h is not
part of the sources), with the attributes of section 3 of the spec and the
effects its backend-side methods have (`connection_started`, `upload`,
`upload_ended`, `request_headers_pushed`). `response_major` and
`response_minor` are the HTTP version the backend reported. -/
structure Downstream where
  request_method : Bytes := []
  request_path : Bytes := []
  request_headers : Headers := []
  request_state : IOState := IOState.INITIAL
  request_connection_close : Bool := false
  request_headers_pushed : Bool := false
  connection_started : Bool := false
  upload : List Bytes := []
  upload_ended : Bool := false
  response_state : IOState := IOState.INITIAL
  response_http_status : Int := 0
  response_major : Nat := 0
  response_minor : Nat := 0
  response_headers : Headers := []
  chunked_response : Bool := false
  deriving DecidableEq, Repr

/-- Addresses of `Downstream` objects. -/
abbrev Ptr := Nat

/-- One client connection: the `HttpsUpstream`, its `ClientHandler` with the
input and output evbuffers of its bufferevent, and the `Downstream` objects
the upstream has allocated. -/
structure Bridge where
  /-- the input evbuffer of `handler_->get_bev()` -/
  input : Bytes := []
  /-- the output evbuffer of `handler_->get_bev()` -/
  output : Bytes := []
  /-- whether `EV_READ` is enabled on the client bufferevent -/
  read_enabled : Bool := true
  /-- the flag set by `ClientHandler::set_should_close_after_write` -/
  should_close_after_write : Bool := false
  /-- whether the `ClientHandler` has been deleted -/
  handler_deleted : Bool := false
  /-- the deque `downstream_queue_`, front first -/
  downstream_queue_ : List Ptr := []
  /-- the live `Downstream` objects -/
  heap : Ptr → Option Downstream := fun _ => none
  /-- ghost: the deleted objects, most recent first, as they were at `delete` -/
  destroyed : List (Ptr × Downstream) := []
  /-- the address the next `new Downstream` returns -/
  next_ptr : Ptr := 0

/-- Write through a live pointer. -/
def Bridge.store (s : Bridge) (p : Ptr) (d : Downstream) : Bridge :=
  { s with heap := fun q => if q = p then some d else s.heap q }

/-- The statement `delete downstream`. -/
def Bridge.delete (s : Bridge) (p : Ptr) : Option Bridge :=
  match s.heap p with
  | none => none
  | some d =>
    some { s with heap := fun q => if q = p then none else s.heap q,
                  destroyed := (p, d) :: s.destroyed }

/-- The call `evbuffer_add(output, data, len)` on the client output. -/
def evbuffer_add (s : Bridge) (data : Bytes) : Bridge :=
  { s with output := s.output ++ data }

/-! ## Pipeline queue -/

/-- `HttpsUpstream::add_downstream`. -/
def add_downstream (s : Bridge) (p : Ptr) : Bridge :=
  { s with downstream_queue_ := s.downstream_queue_ ++ [p] }

/-- `HttpsUpstream::pop_downstream`: `pop_front()`. -/
def pop_downstream (s : Bridge) : Option Bridge :=
  match s.downstream_queue_ with
  | [] => none
  | _ :: rest => some { s with downstream_queue_ := rest }

/-- `HttpsUpstream::get_top_downstream`: `front()`. -/
def get_top_downstream (s : Bridge) : Option Ptr :=
  s.downstream_queue_.head?

/-- `HttpsUpstream::get_last_downstream`: `back()`. -/
def get_last_downstream (s : Bridge) : Option Ptr :=
  s.downstream_queue_.getLast?

/-! ## Response framer -/

/-- The test of lines 405-407: the header name is one of the three names
that are not forwarded. -/
def is_ignored_header (name : Bytes) : Bool :=
  util.strieq (c_str name) "keep-alive".toList ||
  util.strieq (c_str name) "connection".toList ||
  util.strieq (c_str name) "proxy-connection".toList

/-- The loop of lines 403-420 over the response headers, appending to `hdrs`. -/
def append_response_headers (env : Env) : Headers → Bytes → Bytes
  | [], hdrs => hdrs
  | (name, value) :: rest, hdrs =>
    if is_ignored_header name then
      append_response_headers env rest hdrs
    else
      let hdrs1 :=
        if util.strieq (c_str name) "server".toList then
          hdrs ++ "Server: ".toList ++ env.server_name
        else
          hdrs ++ name ++ ": ".toList ++ value
      append_response_headers env rest (hdrs1 ++ CRLF)

/-- The string `hdrs` of `on_downstream_header_complete` at line 424. -/
def response_header_block (env : Env) (d : Downstream) : Bytes :=
  let hdrs0 := "HTTP/1.1 ".toList ++ env.get_status_string d.response_http_status ++ CRLF
  let hdrs1 := append_response_headers env d.response_headers hdrs0
  let hdrs2 := if d.request_connection_close then hdrs1 ++ "Connection: close\r\n".toList else hdrs1
  hdrs2 ++ CRLF

/-- `HttpsUpstream::on_downstream_header_complete`. -/
def on_downstream_header_complete (env : Env) (s : Bridge) (downstream : Ptr) :
    Option (Bridge × Int) :=
  match s.heap downstream with
  | none => none
  | some d => some (evbuffer_add s (response_header_block env d), 0)

/-- An upper-case hexadecimal digit. -/
def hex_digit (n : Nat) : Char :=
  if n < 10 then Char.ofNat (48 + n) else Char.ofNat (55 + n)

/-- Most significant digit first, no leading zeros; `fuel` bounds the number
of digits. -/
def hex_digits : Nat → Nat → Bytes → Bytes
  | 0, _, acc => acc
  | fuel + 1, n, acc =>
    if n / 16 = 0 then hex_digit (n % 16) :: acc
    else hex_digits fuel (n / 16) (hex_digit (n % 16) :: acc)

/-- The conversion `%X` of printf applied to an unsigned value. -/
def fmt_X (n : Nat) : Bytes := hex_digits (n + 1) n []

/-- The conversion `static_cast<unsigned int>(len)` of a `size_t`. -/
def to_unsigned_int (len : Nat) : Nat := len % 2 ^ 32

/-- The call `snprintf(buf, size, "%X\r\n", v)`: the buffer afterwards (at most
`size - 1` formatted bytes, a NUL, the rest of the buffer taken as NUL) and
the returned count, which is the length of the untruncated text. -/
def snprintf_X (size : Nat) (v : Nat) : Bytes × Nat :=
  let text := fmt_X v ++ CRLF
  let stored := text.take (size - 1)
  (stored ++ List.replicate (size - stored.length) (Char.ofNat 0), text.length)

/-- `HttpsUpstream::on_downstream_body`; `len` is `data.length`. -/
def on_downstream_body (s : Bridge) (downstream : Ptr) (data : Bytes) :
    Option (Bridge × Int) :=
  match s.heap downstream with
  | none => none
  | some d =>
    let s1 :=
      if d.chunked_response then
        let r := snprintf_X 16 (to_unsigned_int data.length)
        evbuffer_add s (r.1.take r.2)
      else s
    some (evbuffer_add s1 data, 0)

/-- `HttpsUpstream::on_downstream_body_complete`. -/
def on_downstream_body_complete (s : Bridge) (downstream : Ptr) :
    Option (Bridge × Int) :=
  match s.heap downstream with
  | none => none
  | some d =>
    let s1 := if d.chunked_response then evbuffer_add s "0\r\n\r\n".toList else s
    let s2 := if d.request_connection_close then
                { s1 with should_close_after_write := true } else s1
    some (s2, 0)

/-- The output of `operator<<` for a `size_t`: decimal digits. -/
def fmt_decimal (n : Nat) : Bytes := (Nat.repr n).toList

/-- The `header` string of `error_reply` followed by the HTML body. -/
def error_reply_bytes (env : Env) (status_code : Int) : Bytes :=
  let html := env.create_error_html status_code
  let header :=
    "HTTP/1.1 ".toList ++ env.get_status_string status_code ++ "\r\n".toList
      ++ "Server: ".toList ++ env.server_name ++ "\r\n".toList
      ++ "Content-Length: ".toList ++ fmt_decimal html.length ++ "\r\n".toList
      ++ "Content-Type: ".toList ++ "text/html; charset=UTF-8\r\n".toList
      ++ "\r\n".toList
  header ++ html

/-- `HttpsUpstream::error_reply`. -/
def error_reply (env : Env) (s : Bridge) (downstream : Ptr) (status_code : Int) :
    Option Bridge :=
  let html := env.create_error_html status_code
  let header :=
    "HTTP/1.1 ".toList ++ env.get_status_string status_code ++ "\r\n".toList
      ++ "Server: ".toList ++ env.server_name ++ "\r\n".toList
      ++ "Content-Length: ".toList ++ fmt_decimal html.length ++ "\r\n".toList
      ++ "Content-Type: ".toList ++ "text/html; charset=UTF-8\r\n".toList
      ++ "\r\n".toList
  let s1 := evbuffer_add (evbuffer_add s header) html
  match s1.heap downstream with
  | none => none
  | some d => some (s1.store downstream { d with response_state := IOState.MSG_COMPLETE })

/-! ## Request parser callbacks -/

/-- Modelled from the spec: `Downstream::set_request_method`
(shrpx_downstream.cc is not part of the sources); the spec has the method
token accumulated over its fragments. -/
def Downstream.set_request_method (d : Downstream) (data : Bytes) : Downstream :=
  { d with request_method := d.request_method ++ data }

/-- Modelled from the spec: `Downstream::set_request_path`
(shrpx_downstream.cc is not part of the sources); the spec has the URI token
accumulated over its fragments. -/
def Downstream.set_request_path (d : Downstream) (data : Bytes) : Downstream :=
  { d with request_path := d.request_path ++ data }

/-- Modelled from the spec: `Downstream::add_request_header`
(shrpx_downstream.cc is not part of the sources), appending a header pair. -/
def Downstream.add_request_header (d : Downstream) (name value : Bytes) : Downstream :=
  { d with request_headers := d.request_headers ++ [(name, value)] }

/-- Extend the value of the last pair of a header list. -/
def extend_last_value : Headers → Bytes → Headers
  | [], _ => []
  | [(name, value)], data => [(name, value ++ data)]
  | h :: rest, data => h :: extend_last_value rest data

/-- Modelled from the spec: `Downstream::set_last_request_header_value`
(shrpx_downstream.cc is not part of the sources), extending the value of the
most recently added header pair. -/
def Downstream.set_last_request_header_value (d : Downstream) (data : Bytes) : Downstream :=
  { d with request_headers := extend_last_value d.request_headers data }

/-- Modelled from the spec: `Downstream::push_request_headers`
(shrpx_downstream.cc is not part of the sources), finalizing the accumulated
request headers for the backend. -/
def Downstream.push_request_headers (d : Downstream) : Downstream :=
  { d with request_headers_pushed := true }

/-- Modelled from the spec: `Downstream::start_connection`
(shrpx_downstream.cc is not part of the sources), initiating the backend
connection of the exchange. -/
def Downstream.start_connection (d : Downstream) : Downstream :=
  { d with connection_started := true }

/-- Modelled from the spec: `Downstream::push_upload_data_chunk`
(shrpx_downstream.cc is not part of the sources), forwarding body bytes to the
backend. -/
def Downstream.push_upload_data_chunk (d : Downstream) (data : Bytes) : Downstream :=
  { d with upload := d.upload ++ [data] }

/-- Modelled from the spec: `Downstream::end_upload_data`
(shrpx_downstream.cc is not part of the sources), signalling the end of the
request body to the backend. -/
def Downstream.end_upload_data (d : Downstream) : Downstream :=
  { d with upload_ended := true }

/-- Apply `f` to the object `get_last_downstream()` points to and return
`rv`; undefined when the queue is empty or its back is not a live object. -/
def with_last_downstream (s : Bridge) (f : Downstream → Downstream) (rv : Int) :
    Option (Bridge × Int) :=
  match get_last_downstream s with
  | none => none
  | some p =>
    match s.heap p with
    | none => none
    | some d => some (s.store p (f d), rv)

/-- `htp_msg_begin`: `new Downstream(upstream, 0, 0)` and `add_downstream`. -/
def htp_msg_begin (s : Bridge) : Option (Bridge × Int) :=
  let p := s.next_ptr
  let s1 := { s with heap := fun q => if q = p then some ({} : Downstream) else s.heap q,
                     next_ptr := p + 1 }
  some (add_downstream s1 p, 0)

/-- `htp_methodcb`. -/
def htp_methodcb (s : Bridge) (data : Bytes) : Option (Bridge × Int) :=
  with_last_downstream s (fun d => d.set_request_method data) 0

/-- `htp_uricb`. -/
def htp_uricb (s : Bridge) (data : Bytes) : Option (Bridge × Int) :=
  with_last_downstream s (fun d => d.set_request_path data) 0

/-- `htp_hdrs_begincb`; `major` and `minor` are `htparser_get_major(htp)` and
`htparser_get_minor(htp)`. -/
def htp_hdrs_begincb (s : Bridge) (major minor : Nat) : Option (Bridge × Int) :=
  let version := major * 100 + minor
  with_last_downstream s
    (fun d => if version < 101 then { d with request_connection_close := true } else d) 0

/-- `htp_hdr_keycb`. -/
def htp_hdr_keycb (s : Bridge) (data : Bytes) : Option (Bridge × Int) :=
  with_last_downstream s (fun d => d.add_request_header data []) 0

/-- `htp_hdr_valcb`. -/
def htp_hdr_valcb (s : Bridge) (data : Bytes) : Option (Bridge × Int) :=
  with_last_downstream s (fun d => d.set_last_request_header_value data) 0

/-- `htp_hdrs_completecb`. -/
def htp_hdrs_completecb (s : Bridge) : Option (Bridge × Int) :=
  with_last_downstream s
    (fun d =>
      let d1 := d.push_request_headers
      let d2 := { d1 with request_state := IOState.HEADER_COMPLETE }
      d2.start_connection) 0

/-- `htp_bodycb`. -/
def htp_bodycb (s : Bridge) (data : Bytes) : Option (Bridge × Int) :=
  with_last_downstream s (fun d => d.push_upload_data_chunk data) 0

/-- `htp_msg_completecb`; it returns 1 to stop the tokenizer. -/
def htp_msg_completecb (s : Bridge) : Option (Bridge × Int) :=
  with_last_downstream s
    (fun d => { d.end_upload_data with request_state := IOState.MSG_COMPLETE }) 1

/-! ## The tokenizer and `on_read` -/

/-- The value of `htparser_get_error`: no error, a hook returned non-zero
(`htparse_error_user`), or one of the malformed-input errors. -/
inductive htpparse_error where
  | htparse_error_none
  | htparse_error_user
  | htparse_error_generic
  deriving DecidableEq, Repr

/-- A hook of `htp_hooks` the tokenizer invokes, with the arguments it
passes; the hooks that are 0 in the table are never invoked. -/
inductive HtpCall where
  | on_msg_begin
  | method (data : Bytes)
  | uri (data : Bytes)
  | on_hdrs_begin (major minor : Nat)
  | hdr_key (data : Bytes)
  | hdr_val (data : Bytes)
  | on_hdrs_complete
  | body (data : Bytes)
  | on_msg_complete
  deriving DecidableEq, Repr

/-- The table `htp_hooks`. -/
def htp_hooks (s : Bridge) : HtpCall → Option (Bridge × Int)
  | HtpCall.on_msg_begin => htp_msg_begin s
  | HtpCall.method data => htp_methodcb s data
  | HtpCall.uri data => htp_uricb s data
  | HtpCall.on_hdrs_begin major minor => htp_hdrs_begincb s major minor
  | HtpCall.hdr_key data => htp_hdr_keycb s data
  | HtpCall.hdr_val data => htp_hdr_valcb s data
  | HtpCall.on_hdrs_complete => htp_hdrs_completecb s
  | HtpCall.body data => htp_bodycb s data
  | HtpCall.on_msg_complete => htp_msg_completecb s

/-- What the external tokenizer does with the bytes of one `htparser_run`
call: the hooks it invokes in order, each with the byte count the run returns
if that hook stops it, and the byte count and error of a run no hook stops. -/
structure Feed where
  calls : List (HtpCall × Nat) := []
  nread : Nat := 0
  error : htpparse_error := htpparse_error.htparse_error_none

/-- The hook calls of one `htparser_run`: a hook that returns non-zero stops
the run with `htparse_error_user`. The result is the state, the returned byte
count and `htparser_get_error`. -/
def run_hooks : List (HtpCall × Nat) → Nat → htpparse_error → Bridge →
    Option (Bridge × Nat × htpparse_error)
  | [], nread, err, s => some (s, nread, err)
  | (c, n) :: rest, nread, err, s =>
    match htp_hooks s c with
    | none => none
    | some (s1, rv) =>
      if rv ≠ 0 then some (s1, n, htpparse_error.htparse_error_user)
      else run_hooks rest nread err s1

/-- `htparser_run(htp_, &htp_hooks, mem, len)` for the feed the tokenizer
produces on these bytes. -/
def htparser_run (feed : Feed) (s : Bridge) : Option (Bridge × Nat × htpparse_error) :=
  run_hooks feed.calls feed.nread feed.error s

/-- The conversion of the `size_t` result of `htparser_run` to `int nread`:
the value modulo 2^32 read as a 32-bit two's complement number (what GCC,
Clang and MSVC do, and the rule of C++20). -/
def int_of_size_t (n : Nat) : Int :=
  if n % 2 ^ 32 < 2 ^ 31 then ((n % 2 ^ 32 : Nat) : Int) else ((n % 2 ^ 32 : Nat) : Int) - 2 ^ 32

/-- The conversion of `int nread` to the `size_t` argument of `evbuffer_drain`,
for a `size_t` of 64 bits: the value modulo 2^64. -/
def size_t_of_int (i : Int) : Nat := (i % 2 ^ 64).toNat

/-- `evbuffer_drain(input, len)`: remove the first `len` bytes, all of them
when `len` exceeds the length. -/
def evbuffer_drain (s : Bridge) (len : Nat) : Bridge :=
  { s with input := s.input.drop len }

/-- `HttpsUpstream::on_read`; the one-time logging through `cache` has no
effect on the connection and is left out. -/
def on_read (env : Env) (feed : Feed) (s : Bridge) : Option (Bridge × Int) :=
  match htparser_run feed s with
  | none => none
  | some (s1, n, htperr) =>
    let nread := int_of_size_t n
    let s2 := evbuffer_drain s1 (size_t_of_int nread)
    if htperr = htpparse_error.htparse_error_user then
      some ({ s2 with read_enabled := false }, 0)
    else if htperr ≠ htpparse_error.htparse_error_none then
      some (s2, env.SHRPX_ERR_HTTP_PARSE)
    else
      some (s2, 0)

/-- `HttpsUpstream::resume_read`; the value `on_read` returns is dropped. -/
def resume_read (env : Env) (feed : Feed) (s : Bridge) : Option Bridge :=
  match on_read env feed { s with read_enabled := true } with
  | none => none
  | some (s1, _) => some s1

/-! ## Backend event handlers -/

/-- The flag `BEV_EVENT_EOF` of libevent. -/
def BEV_EVENT_EOF : Nat := 0x10
/-- The flag `BEV_EVENT_ERROR` of libevent. -/
def BEV_EVENT_ERROR : Nat := 0x20
/-- The flag `BEV_EVENT_TIMEOUT` of libevent. -/
def BEV_EVENT_TIMEOUT : Nat := 0x40
/-- The flag `BEV_EVENT_CONNECTED` of libevent. -/
def BEV_EVENT_CONNECTED : Nat := 0x80

/-- The steps `pop_downstream(); delete downstream; resume_read();` that end
every retiring path. -/
def retire (env : Env) (feed : Feed) (s : Bridge) (downstream : Ptr) : Option Bridge :=
  match pop_downstream s with
  | none => none
  | some s1 =>
    match s1.delete downstream with
    | none => none
    | some s2 => resume_read env feed s2

/-- `https_downstream_readcb`; `parse_http_response` is the effect and the
result of `downstream->parse_http_response()`, `feed` what the tokenizer does
in the parse pass of `resume_read`. -/
def https_downstream_readcb (env : Env)
    (parse_http_response : Bridge → Ptr → Option (Bridge × Int))
    (feed : Feed) (s : Bridge) (downstream : Ptr) : Option Bridge :=
  match s.heap downstream with
  | none => none
  | some _ =>
    match parse_http_response s downstream with
    | none => none
    | some (s1, rv) =>
      match s1.heap downstream with
      | none => none
      | some d =>
        if rv = 0 then
          if d.response_state = IOState.MSG_COMPLETE then
            match get_top_downstream s1 with
            | none => none
            | some top =>
              if downstream = top then retire env feed s1 downstream else none
          else some s1
        else
          if d.response_state = IOState.HEADER_COMPLETE then
            some { s1 with handler_deleted := true }
          else
            match error_reply env s1 downstream 502 with
            | none => none
            | some s2 =>
              match get_top_downstream s2 with
              | none => none
              | some top =>
                if downstream = top then retire env feed s2 downstream else none

/-- `https_downstream_eventcb`; `events` is the bit set of the event, `feed`
what the tokenizer does in the parse pass of `resume_read`. -/
def https_downstream_eventcb (env : Env) (feed : Feed) (s : Bridge) (events : Nat)
    (downstream : Ptr) : Option Bridge :=
  match s.heap downstream with
  | none => none
  | some d =>
    if events &&& BEV_EVENT_EOF ≠ 0 then
      let r :=
        if d.response_state = IOState.HEADER_COMPLETE then
          (on_downstream_body_complete s downstream).map Prod.fst
        else if d.response_state = IOState.MSG_COMPLETE then
          some s
        else
          error_reply env s downstream 502
      match r with
      | none => none
      | some s1 => retire env feed s1 downstream
    else if events &&& (BEV_EVENT_ERROR ||| BEV_EVENT_TIMEOUT) ≠ 0 then
      let r :=
        if d.response_state = IOState.INITIAL then
          let status : Int := if events &&& BEV_EVENT_TIMEOUT ≠ 0 then 504 else 502
          error_reply env s downstream status
        else some s
      match r with
      | none => none
      | some s1 => retire env feed s1 downstream
    else some s

/-! ## What the framer writes, in closed form -/

/-- The header line `on_downstream_header_complete` writes for a forwarded
backend header. -/
def forwarded_line (env : Env) (h : Bytes × Bytes) : Bytes :=
  if util.strieq (c_str h.1) "server".toList then "Server: ".toList ++ env.server_name ++ CRLF
  else h.1 ++ ": ".toList ++ h.2 ++ CRLF

/-- The backend headers that are forwarded, in their order. -/
def kept_headers (hs : Headers) : Headers :=
  hs.filter (fun h =>
    !(util.strieq (c_str h.1) "keep-alive".toList ||
      util.strieq (c_str h.1) "connection".toList ||
      util.strieq (c_str h.1) "proxy-connection".toList))

/-- The header entries `on_downstream_header_complete` writes after the
status line. -/
def written_entries (env : Env) (d : Downstream) : Headers :=
  (kept_headers d.response_headers).map
      (fun h => if util.strieq (c_str h.1) "server".toList
                then ("Server".toList, env.server_name) else h)
    ++ (if d.request_connection_close then [("Connection".toList, "close".toList)] else [])

/-- The header lines of the response header block as the specification words
them: header names are compared whole, ignoring ASCII letter case. -/
def specified_header_lines (env : Env) (hs : Headers) : Bytes :=
  ((hs.filter (fun b =>
        !(util.strieq b.1 "keep-alive".toList ||
          util.strieq b.1 "connection".toList ||
          util.strieq b.1 "proxy-connection".toList))).map
      (fun b =>
        if util.strieq b.1 "server".toList then "Server: ".toList ++ env.server_name ++ CRLF
        else b.1 ++ ": ".toList ++ b.2 ++ CRLF)).flatten

/-- The response header block as the specification words it: status line,
header lines, `Connection: close` when the request asked for it, CRLF. -/
def specified_header_block (env : Env) (d : Downstream) : Bytes :=
  "HTTP/1.1 ".toList ++ env.get_status_string d.response_http_status ++ CRLF
    ++ specified_header_lines env d.response_headers
    ++ (if d.request_connection_close then "Connection: close".toList ++ CRLF else [])
    ++ CRLF

/-- The wire form of header entries: `name: value CRLF` each. -/
def render_entries (es : Headers) : Bytes :=
  (es.map (fun e => e.1 ++ ": ".toList ++ e.2 ++ CRLF)).flatten

/-- The bytes `on_downstream_body` writes for one fragment of a chunked
response. -/
def chunk_frame (data : Bytes) : Bytes :=
  fmt_X (to_unsigned_int data.length) ++ CRLF ++ data

/-- A response body delivered as a sequence of fragments. -/
def deliver_fragments : List Bytes → Bridge → Ptr → Option Bridge
  | [], s, _ => some s
  | data :: rest, s, downstream =>
    match on_downstream_body s downstream data with
    | none => none
    | some (s1, _) => deliver_fragments rest s1 downstream

/-- A response body delivered as a sequence of fragments followed by one
completion. -/
def deliver_body (frags : List Bytes) (s : Bridge) (downstream : Ptr) : Option Bridge :=
  match deliver_fragments frags s downstream with
  | none => none
  | some s1 => (on_downstream_body_complete s1 downstream).map Prod.fst

/-! ## The parse pass of `on_read`, in closed form -/

/-- The number of `on_msg_begin` hooks a run executes: those before the first
`on_msg_complete`, whose hook stops the run. -/
def messages_begun : List (HtpCall × Nat) → Nat
  | [] => 0
  | (c, _) :: rest =>
    if c = HtpCall.on_msg_complete then 0
    else (if c = HtpCall.on_msg_begin then 1 else 0) + messages_begun rest

/-- Whether a run is stopped by a hook: it reaches an `on_msg_complete`. -/
def stopped_by_hook : List (HtpCall × Nat) → Bool
  | [] => false
  | (c, _) :: rest => if c = HtpCall.on_msg_complete then true else stopped_by_hook rest

/-- The value of `htparser_get_error` after the run of a feed. -/
def final_error (feed : Feed) : htpparse_error :=
  if stopped_by_hook feed.calls then htpparse_error.htparse_error_user else feed.error

/-- The parts of the connection the request parser callbacks do not touch. -/
def same_client_side (s s1 : Bridge) : Prop :=
  s1.output = s.output ∧ s1.destroyed = s.destroyed ∧
  s1.should_close_after_write = s.should_close_after_write ∧
  s1.read_enabled = s.read_enabled

/-! ## Tokens, versions and consumed bytes, in closed form -/

/-- The byte count one `htparser_run` returns for a feed: the count of the
hook that stops the run, or the count of the feed. -/
def consumed : List (HtpCall × Nat) → Nat → Nat
  | [], nread => nread
  | (c, n) :: rest, nread => if c = HtpCall.on_msg_complete then n else consumed rest nread

/-- The version `major.minor` is below HTTP/1.1. -/
def below_HTTP_1_1 (major minor : Nat) : Prop :=
  major < 1 ∨ (major = 1 ∧ minor < 1)

/-- The method callbacks of the fragments of one method token, in order. -/
def deliver_method : List Bytes → Bridge → Option Bridge
  | [], s => some s
  | f :: rest, s =>
    match htp_methodcb s f with
    | none => none
    | some (s1, _) => deliver_method rest s1

/-- The URI callbacks of the fragments of one URI token, in order. -/
def deliver_uri : List Bytes → Bridge → Option Bridge
  | [], s => some s
  | f :: rest, s =>
    match htp_uricb s f with
    | none => none
    | some (s1, _) => deliver_uri rest s1

/-! ## Runs of a connection

The callbacks of a connection as steps of a transition system. The tokenizer
is external, so its position in the grammar of a request is tracked next to
the connection state. -/

/-- Where the tokenizer is in the grammar of a request: between requests,
between message-begin and headers-complete, or in the body. -/
inductive Phase where
  | idle
  | head
  | body
  deriving DecidableEq, Repr

/-- The grammar of the parser callbacks of a request: message-begin, then
method, URI, headers-begin and header fields, then headers-complete, then
body fragments, then message-complete. -/
def Phase.next : Phase → HtpCall → Option Phase
  | Phase.idle, HtpCall.on_msg_begin => some Phase.head
  | Phase.head, HtpCall.method _ => some Phase.head
  | Phase.head, HtpCall.uri _ => some Phase.head
  | Phase.head, HtpCall.on_hdrs_begin _ _ => some Phase.head
  | Phase.head, HtpCall.hdr_key _ => some Phase.head
  | Phase.head, HtpCall.hdr_val _ => some Phase.head
  | Phase.head, HtpCall.on_hdrs_complete => some Phase.body
  | Phase.body, HtpCall.body _ => some Phase.body
  | Phase.body, HtpCall.on_msg_complete => some Phase.idle
  | _, _ => none

/-- The phase after the hooks one run executes (it stops after
`on_msg_complete`); `none` when they do not follow the grammar. -/
def phase_after : Phase → List (HtpCall × Nat) → Option Phase
  | ph, [] => some ph
  | ph, (c, _) :: rest =>
    match ph.next c with
    | none => none
    | some ph1 => if c = HtpCall.on_msg_complete then some ph1 else phase_after ph1 rest

/-- The order INITIAL < HEADER_COMPLETE < MSG_COMPLETE. -/
def IOState.rank : IOState → Nat
  | IOState.INITIAL => 0
  | IOState.HEADER_COMPLETE => 1
  | IOState.MSG_COMPLETE => 2

/-- No exchange that exists before and after has moved backwards in its
request-state or its response-state. -/
def no_regress (s s1 : Bridge) : Prop :=
  ∀ p d d1, s.heap p = some d → s1.heap p = some d1 →
    d.request_state.rank ≤ d1.request_state.rank ∧
    d.response_state.rank ≤ d1.response_state.rank

/-- The request-state a parser callback leaves in the exchange it acts on. -/
def request_state_after (c : HtpCall) (old : IOState) : IOState :=
  match c with
  | HtpCall.on_hdrs_complete => IOState.HEADER_COMPLETE
  | HtpCall.on_msg_complete => IOState.MSG_COMPLETE
  | _ => old

/-- What holds of the connection whenever the tokenizer is in phase `ph`:
addresses from `next_ptr` on are unused; between message-begin and
headers-complete the back of the queue has request-state INITIAL; and, when
the steps are those of the event loop (`loop`), the live exchanges are the
queued ones, there is at most one, and none between requests while a parse
pass runs. -/
def HookInv (loop : Bool) (s : Bridge) (ph : Phase) : Prop :=
  (∀ p, s.next_ptr ≤ p → s.heap p = none)
  ∧ (ph = Phase.head → ∀ p d, get_last_downstream s = some p → s.heap p = some d →
      d.request_state = IOState.INITIAL)
  ∧ (loop = true →
      (∀ p, (s.heap p).isSome = true ↔ p ∈ s.downstream_queue_)
      ∧ s.downstream_queue_.length ≤ 1
      ∧ (ph = Phase.idle → s.downstream_queue_ = []))

/-- Live exchanges stay alive without moving backwards, and unused addresses
below `next_ptr` stay unused. -/
def heap_advances (s s1 : Bridge) : Prop :=
  (∀ p d, s.heap p = some d → ∃ d1, s1.heap p = some d1
      ∧ d.request_state.rank ≤ d1.request_state.rank
      ∧ d.response_state.rank ≤ d1.response_state.rank)
  ∧ (∀ p, p < s.next_ptr → s.heap p = none → s1.heap p = none)
  ∧ s.next_ptr ≤ s1.next_ptr

/-- What holds of the connection between two steps: as `HookInv`, but in the
event loop the queue is only known to be empty between requests while read
notifications are enabled. -/
def Inv (loop : Bool) (c : Bridge × Phase) : Prop :=
  (∀ p, c.1.next_ptr ≤ p → c.1.heap p = none)
  ∧ (c.2 = Phase.head → ∀ p d, get_last_downstream c.1 = some p → c.1.heap p = some d →
      d.request_state = IOState.INITIAL)
  ∧ (loop = true →
      (∀ p, (c.1.heap p).isSome = true ↔ p ∈ c.1.downstream_queue_)
      ∧ c.1.downstream_queue_.length ≤ 1
      ∧ (c.2 = Phase.idle → c.1.read_enabled = true → c.1.downstream_queue_ = []))

/-- The state in which an exchange is retired differs from the state `s` in
which its backend event arrived at most by client-side fields and by the
response-state MSG_COMPLETE that `error_reply` leaves in the exchange. -/
def replied (s : Bridge) (p : Ptr) (d : Downstream) (s1 : Bridge) : Prop :=
  s1.downstream_queue_ = s.downstream_queue_ ∧ s1.next_ptr = s.next_ptr
  ∧ (s1.heap = s.heap
     ∨ s1.heap = fun q =>
         if q = p then some { d with response_state := IOState.MSG_COMPLETE } else s.heap q)

/-- What is assumed of `Downstream::parse_http_response`, which is not part
of these sources: it leaves the queue, the allocator and the read
notifications alone, creates and destroys no exchange, leaves every
request-state as it is and moves no response-state backwards. -/
def parse_well_behaved (parse : Bridge → Ptr → Option (Bridge × Int)) : Prop :=
  ∀ s p r, parse s p = some r →
    r.1.downstream_queue_ = s.downstream_queue_ ∧ r.1.next_ptr = s.next_ptr
    ∧ r.1.read_enabled = s.read_enabled
    ∧ (∀ q d, s.heap q = some d → ∃ d1, r.1.heap q = some d1
        ∧ d1.request_state = d.request_state
        ∧ d.response_state.rank ≤ d1.response_state.rank)
    ∧ (∀ q, s.heap q = none → r.1.heap q = none)

/-- Whether `https_downstream_eventcb` retires the exchange, and so runs the
parse pass of `resume_read`. -/
def eventcb_resumes (events : Nat) : Bool :=
  decide (events &&& BEV_EVENT_EOF ≠ 0)
    || decide (events &&& (BEV_EVENT_ERROR ||| BEV_EVENT_TIMEOUT) ≠ 0)

/-- Whether `https_downstream_readcb` retires the exchange, and so runs the
parse pass of `resume_read`. -/
def readcb_resumes (parse : Bridge → Ptr → Option (Bridge × Int)) (s : Bridge)
    (downstream : Ptr) : Bool :=
  match parse s downstream with
  | none => false
  | some (s1, rv) =>
    match s1.heap downstream with
    | none => false
    | some d =>
      if rv = 0 then decide (d.response_state = IOState.MSG_COMPLETE)
      else decide (d.response_state ≠ IOState.HEADER_COMPLETE)

/-- The callback invocations on a connection: one parser callback, one
`on_read` on a read event (after `arrived` was appended to the input buffer),
one backend event, one backend read, one `error_reply`. -/
inductive Step where
  | hook (call : HtpCall)
  | read (arrived : Bytes) (feed : Feed)
  | event (events : Nat) (downstream : Ptr) (feed : Feed)
  | readable (parse : Bridge → Ptr → Option (Bridge × Int)) (downstream : Ptr) (feed : Feed)
  | reply (downstream : Ptr) (status_code : Int)

/-- One step of the connection together with the tokenizer's phase; `none`
when the behaviour is undefined or the parser callbacks of the step do not
follow the grammar. -/
def step (env : Env) (c : Bridge × Phase) : Step → Option (Bridge × Phase)
  | Step.hook call =>
    match htp_hooks c.1 call, c.2.next call with
    | some r, some ph1 => some (r.1, ph1)
    | _, _ => none
  | Step.read arrived feed =>
    match on_read env feed { c.1 with input := c.1.input ++ arrived },
          phase_after c.2 feed.calls with
    | some r, some ph1 => some (r.1, ph1)
    | _, _ => none
  | Step.event events downstream feed =>
    match https_downstream_eventcb env feed c.1 events downstream,
          phase_after c.2 feed.calls with
    | some s1, some ph1 => some (s1, if eventcb_resumes events then ph1 else c.2)
    | _, _ => none
  | Step.readable parse downstream feed =>
    match https_downstream_readcb env parse feed c.1 downstream,
          phase_after c.2 feed.calls with
    | some s1, some ph1 => some (s1, if readcb_resumes parse c.1 downstream then ph1 else c.2)
    | _, _ => none
  | Step.reply downstream status_code =>
    match error_reply env c.1 downstream status_code with
    | some s1 => some (s1, c.2)
    | none => none

/-- The steps that can be taken. With `loop` the steps are those of the event
loop: `on_read` runs on a read event only while read notifications are
enabled, and parser callbacks and `error_reply` run only inside the handlers.
Without it every callback may be invoked at any time. A backend read needs a
well-behaved response parser. Nothing runs once the client handler is
deleted. -/
def admissible (loop : Bool) (c : Bridge × Phase) : Step → Prop
  | Step.hook _ => c.1.handler_deleted = false ∧ loop = false
  | Step.read _ _ => c.1.handler_deleted = false ∧ (loop = true → c.1.read_enabled = true)
  | Step.event _ _ _ => c.1.handler_deleted = false
  | Step.readable parse _ _ => c.1.handler_deleted = false ∧ parse_well_behaved parse
  | Step.reply _ _ => c.1.handler_deleted = false ∧ loop = false

/-- The configurations reached from a new connection. -/
inductive Reachable (env : Env) (loop : Bool) : Bridge × Phase → Prop where
  | start : Reachable env loop ({}, Phase.idle)
  | next (c c1 : Bridge × Phase) (st : Step) :
      Reachable env loop c → admissible loop c st → step env c st = some c1 →
      Reachable env loop c1

/-- The framer and `error_reply` write at most for the front of the queue:
whenever one of them writes for an exchange, that exchange is the front. -/
def written_for_front (env : Env) (s : Bridge) : Prop :=
  ∀ (p : Ptr) (data : Bytes) (status_code : Int),
    ((on_downstream_header_complete env s p).isSome = true
      ∨ (on_downstream_body s p data).isSome = true
      ∨ (on_downstream_body_complete s p).isSome = true
      ∨ (error_reply env s p status_code).isSome = true) →
    get_top_downstream s = some p

/-! ## A chunked decoder for comparison

The transfer coding `chunked` of HTTP/1.1 as a receiver reads it: each chunk
is its size in hexadecimal, CRLF, that many bytes, CRLF; the last chunk has
size zero and is followed by a final CRLF (no extensions, no trailers). -/

/-- The value of a hexadecimal digit. -/
def hex_value (c : Char) : Option Nat :=
  if 48 ≤ c.toNat ∧ c.toNat ≤ 57 then some (c.toNat - 48)
  else if 65 ≤ c.toNat ∧ c.toNat ≤ 70 then some (c.toNat - 55)
  else if 97 ≤ c.toNat ∧ c.toNat ≤ 102 then some (c.toNat - 87)
  else none

/-- Read hexadecimal digits: the value read so far and the rest. -/
def read_hex : Bytes → Nat → Nat × Bytes
  | [], acc => (acc, [])
  | c :: rest, acc =>
    match hex_value c with
    | some v => read_hex rest (acc * 16 + v)
    | none => (acc, c :: rest)

/-- Remove a leading CRLF. -/
def expect_CRLF : Bytes → Option Bytes
  | a :: b :: rest => if a = Char.ofNat 13 ∧ b = Char.ofNat 10 then some rest else none
  | _ => none

/-- Decode a chunked body, `fuel` bounding the number of chunks. -/
def chunked_decode_loop : Nat → Bytes → Bytes → Option Bytes
  | 0, _, _ => none
  | fuel + 1, wire, acc =>
    match wire with
    | [] => none
    | c :: _ =>
      if (hex_value c).isNone then none
      else
        let r := read_hex wire 0
        match expect_CRLF r.2 with
        | none => none
        | some rest =>
          if r.1 = 0 then
            if rest = CRLF then some acc else none
          else if rest.length < r.1 then none
          else
            match expect_CRLF (rest.drop r.1) with
            | none => none
            | some rest1 => chunked_decode_loop fuel rest1 (acc ++ rest.take r.1)

/-- Decode a complete chunked body; `none` when it is not well formed. -/
def chunked_decode (wire : Bytes) : Option Bytes :=
  chunked_decode_loop (wire.length + 1) wire []

/-! ## Sample collaborators and states -/

/-- A configuration with server name `shrpx` and a small status table. -/
def sample_env : Env where
  server_name := "shrpx".toList
  get_status_string := fun status =>
    if status = 200 then "200 OK".toList
    else if status = 502 then "502 Bad Gateway".toList
    else if status = 504 then "504 Gateway Timeout".toList
    else "500 Internal Server Error".toList
  create_error_html := fun status =>
    if status = 504 then "<html>504</html>".toList else "<html>502</html>".toList
  SHRPX_ERR_HTTP_PARSE := -101

/-- A connection whose queue holds the one exchange `d`, at address 0. -/
def sample_bridge (d : Downstream) : Bridge :=
  { downstream_queue_ := [0],
    heap := fun p => if p = 0 then some d else none,
    next_ptr := 1 }

/-- A backend response with status 200 and four headers. -/
def sample_response : Downstream :=
  { request_state := IOState.MSG_COMPLETE,
    response_state := IOState.HEADER_COMPLETE,
    response_http_status := 200,
    response_major := 1,
    response_minor := 0,
    response_headers :=
      [("Connection".toList, "keep-alive".toList), ("X-Foo".toList, "bar".toList),
       ("Keep-Alive".toList, "timeout=5".toList), ("server".toList, "nginx".toList)] }

/-- A backend response with two headers whose names hold a NUL byte after
`connection` and after `server`. -/
def nul_named_response : Downstream :=
  { request_state := IOState.MSG_COMPLETE,
    response_state := IOState.HEADER_COMPLETE,
    response_http_status := 200,
    response_headers :=
      [("connection\x00x".toList, "v".toList), ("X-Foo".toList, "bar".toList),
       ("server\x00x".toList, "w".toList)] }

/-- Two exchanges in flight: the queue is `[1, 2]`, both responses INITIAL. -/
def two_exchanges : Bridge :=
  { downstream_queue_ := [1, 2],
    heap := fun p => if p = 1 then some {} else if p = 2 then some {} else none,
    next_ptr := 3 }

/-- An exchange whose response headers are complete and whose body is chunked. -/
def sample_chunked : Downstream :=
  { request_state := IOState.MSG_COMPLETE,
    response_state := IOState.HEADER_COMPLETE,
    response_http_status := 200,
    chunked_response := true }

/-- The request `GET /b HTTP/1.1` with one header, as it sits in the input
buffer. -/
def pipelined_request : Bytes := "GET /b HTTP/1.1\r\nHost: a\r\n\r\n".toList

/-- What the tokenizer does with `pipelined_request`: the hooks of one
complete request, the last of which stops the run after all 28 bytes. -/
def pipelined_request_feed : Feed :=
  { calls :=
      [(HtpCall.on_msg_begin, 1), (HtpCall.method "GET".toList, 4),
       (HtpCall.uri "/b".toList, 7), (HtpCall.on_hdrs_begin 1 1, 17),
       (HtpCall.hdr_key "Host".toList, 22), (HtpCall.hdr_val "a".toList, 26),
       (HtpCall.on_hdrs_complete, 28), (HtpCall.on_msg_complete, 28)],
    nread := 28,
    error := htpparse_error.htparse_error_none }

/-- A connection waiting for the backend of its one exchange (request
complete, no response yet, reads paused), with the next pipelined request
already in the input buffer. -/
def waiting_bridge : Bridge :=
  { input := pipelined_request,
    read_enabled := false,
    downstream_queue_ := [0],
    heap := fun p =>
      if p = 0 then some { request_state := IOState.MSG_COMPLETE, connection_started := true }
      else none,
    next_ptr := 1 }

/-- A connection on which nothing has happened yet, with `input` buffered. -/
def fresh_bridge (input : Bytes) : Bridge := { input := input }

/-- A tokenizer run that consumes 3 bytes and reports malformed input. -/
def malformed_feed : Feed :=
  { calls := [], nread := 3, error := htpparse_error.htparse_error_generic }

/-- A request whose body is being uploaded: headers complete, the backend
connection started. -/
def uploading : Downstream :=
  { request_method := "POST".toList, request_path := "/up".toList,
    request_state := IOState.HEADER_COMPLETE, request_headers_pushed := true,
    connection_started := true }

/-- The first bytes of a request with a body of six bytes. -/
def upload_request : Bytes := "POST /up HTTP/1.1\r\nContent-Length: 6\r\n\r\nabc".toList

/-- The first read of a request with a body: the request line, one header and
the first body bytes; the request is not complete. -/
def partial_upload_feed : Feed :=
  { calls :=
      [(HtpCall.on_msg_begin, 1), (HtpCall.method "POST".toList, 5),
       (HtpCall.uri "/up".toList, 9), (HtpCall.on_hdrs_begin 1 1, 19),
       (HtpCall.hdr_key "Content-Length".toList, 33), (HtpCall.hdr_val "6".toList, 36),
       (HtpCall.on_hdrs_complete, 40), (HtpCall.body "abc".toList, 43)],
    nread := 43 }

/-- The read that brings the rest of the body of that request. -/
def rest_of_upload_feed : Feed :=
  { calls := [(HtpCall.body "def".toList, 3), (HtpCall.on_msg_complete, 3)], nread := 3 }

/-- The configuration after the first read of the upload request on a new
connection. -/
def config_uploading : Bridge × Phase :=
  (step sample_env ({}, Phase.idle) (Step.read upload_request partial_upload_feed)).getD
    ({}, Phase.idle)

/-- The configuration after the second read, which completes the request. -/
def config_uploaded : Bridge × Phase :=
  (step sample_env config_uploading (Step.read "def".toList rest_of_upload_feed)).getD
    ({}, Phase.idle)

/-- The configuration after a backend error for the exchange of
`config_uploading`, whose request is still being read. -/
def config_retired_early : Bridge × Phase :=
  (step sample_env config_uploading (Step.event BEV_EVENT_ERROR 0 {})).getD ({}, Phase.idle)

/-- The response fields after the headers of an empty 200 response. -/
def empty_response (d : Downstream) : Downstream :=
  { d with response_http_status := 200,
           response_headers := [("Content-Length".toList, "0".toList)],
           response_state := IOState.HEADER_COMPLETE }

/-- A backend read in which the response parser of the exchange sees a whole
response (status 200, one header, no body) and passes it on, so that the
response-state is MSG_COMPLETE, and then fails on the bytes that follow. -/
def parse_complete_then_fail (env : Env) (s : Bridge) (downstream : Ptr) :
    Option (Bridge × Int) :=
  match s.heap downstream with
  | none => none
  | some d =>
    match on_downstream_header_complete env (s.store downstream (empty_response d))
        downstream with
    | none => none
    | some (s1, _) =>
      match on_downstream_body_complete s1 downstream with
      | none => none
      | some (s2, _) =>
        some (s2.store downstream
          { empty_response d with response_state := IOState.MSG_COMPLETE }, -1)

/-- The configuration after one complete request is read on a new
connection. -/
def config_waiting : Bridge × Phase :=
  (step sample_env ({}, Phase.idle) (Step.read pipelined_request pipelined_request_feed)).getD
    ({}, Phase.idle)

/-- The configuration after one complete request is read on a new connection,
with malformed bytes behind it in the input buffer. -/
def config_waiting_malformed : Bridge × Phase :=
  (step sample_env ({}, Phase.idle)
    (Step.read (pipelined_request ++ "BAD\r\n".toList) pipelined_request_feed)).getD
    ({}, Phase.idle)

theorem kept_headers_cons (name value : Bytes) (rest : Headers) :
    kept_headers ((name, value) :: rest)
      = if is_ignored_header name then kept_headers rest
        else (name, value) :: kept_headers rest := by
  unfold kept_headers is_ignored_header
  rw [List.filter_cons]
  cases (util.strieq (c_str name) "keep-alive".toList ||
      util.strieq (c_str name) "connection".toList ||
      util.strieq (c_str name) "proxy-connection".toList) <;> rfl

theorem append_response_headers_eq (env : Env) (hs : Headers) (hdrs : Bytes) :
    append_response_headers env hs hdrs
      = hdrs ++ ((kept_headers hs).map (forwarded_line env)).flatten := by
  induction hs generalizing hdrs with
  | nil => simp [append_response_headers, kept_headers]
  | cons h rest ih =>
    obtain ⟨name, value⟩ := h
    rw [kept_headers_cons]
    unfold append_response_headers
    cases is_ignored_header name
    · simp only [Bool.false_eq_true, if_false, ih, List.map_cons, List.flatten_cons,
        forwarded_line]
      cases util.strieq (c_str name) "server".toList <;>
        simp only [Bool.false_eq_true, if_false, if_true, List.append_assoc]
    · simp only [if_true, ih]

theorem c_str_eq_self (n : Bytes) (h : Char.ofNat 0 ∉ n) : c_str n = n := by
  unfold c_str
  rw [List.takeWhile_eq_self_iff]
  intro c hc
  have : c ≠ Char.ofNat 0 := fun e => h (e ▸ hc)
  simpa using this

theorem no_nul_of_strieq (n lit : Bytes) (hlit : Char.ofNat 0 ∉ lit.map util.lowcase)
    (h : util.strieq n lit = true) : Char.ofNat 0 ∉ n := by
  intro hmem
  have heq : n.map util.lowcase = lit.map util.lowcase := by
    simpa [util.strieq] using h
  apply hlit
  rw [← heq]
  exact List.mem_map.mpr ⟨Char.ofNat 0, hmem, by decide⟩

theorem strieq_c_str (n lit : Bytes) (hlit : Char.ofNat 0 ∉ lit.map util.lowcase)
    (h : util.strieq n lit = true) : util.strieq (c_str n) lit = true := by
  rw [c_str_eq_self n (no_nul_of_strieq n lit hlit h)]
  exact h

theorem is_ignored_header_of_no_nul (name : Bytes) (h : Char.ofNat 0 ∉ name) :
    is_ignored_header name
      = (util.strieq name "keep-alive".toList ||
         util.strieq name "connection".toList ||
         util.strieq name "proxy-connection".toList) := by
  unfold is_ignored_header
  rw [c_str_eq_self name h]

theorem kept_headers_not_ignored (hs : Headers) (h : Bytes × Bytes)
    (hmem : h ∈ kept_headers hs) : is_ignored_header h.1 = false := by
  unfold kept_headers at hmem
  have := (List.mem_filter.mp hmem).2
  unfold is_ignored_header
  simpa using this

theorem not_named_of_not_ignored (name : Bytes) (h : is_ignored_header name = false) :
    util.strieq name "keep-alive".toList = false ∧
    util.strieq name "connection".toList = false ∧
    util.strieq name "proxy-connection".toList = false := by
  unfold is_ignored_header at h
  simp only [Bool.or_eq_false_iff] at h
  obtain ⟨⟨h1, h2⟩, h3⟩ := h
  refine ⟨?_, ?_, ?_⟩
  · by_contra hc
    rw [strieq_c_str name _ (by decide) (by simpa using hc)] at h1
    exact Bool.noConfusion h1
  · by_contra hc
    rw [strieq_c_str name _ (by decide) (by simpa using hc)] at h2
    exact Bool.noConfusion h2
  · by_contra hc
    rw [strieq_c_str name _ (by decide) (by simpa using hc)] at h3
    exact Bool.noConfusion h3

theorem render_written_entries (env : Env) (d : Downstream) :
    render_entries (written_entries env d)
      = ((kept_headers d.response_headers).map (forwarded_line env)).flatten
        ++ (if d.request_connection_close then "Connection: close".toList ++ CRLF else []) := by
  unfold render_entries written_entries
  rw [List.map_append, List.flatten_append, List.map_map]
  congr 1
  · congr 1
    apply List.map_congr_left
    intro h _
    simp only [Function.comp, forwarded_line]
    cases util.strieq (c_str h.1) "server".toList
    · simp
    · simp
  · cases d.request_connection_close
    · simp
    · simp

theorem written_entries_names (env : Env) (d : Downstream) (e : Bytes × Bytes)
    (hmem : e ∈ (kept_headers d.response_headers).map
      (fun h => if util.strieq (c_str h.1) "server".toList
                then ("Server".toList, env.server_name) else h)) :
    util.strieq e.1 "keep-alive".toList = false ∧
    util.strieq e.1 "connection".toList = false ∧
    util.strieq e.1 "proxy-connection".toList = false := by
  obtain ⟨h, hk, rfl⟩ := List.mem_map.mp hmem
  cases util.strieq (c_str h.1) "server".toList
  · simpa using not_named_of_not_ignored h.1 (kept_headers_not_ignored _ h hk)
  · simp only [if_true]
    decide

theorem hex_digits_length (fuel : Nat) :
    ∀ (k n : Nat) (acc : Bytes), 1 ≤ k → n < 16 ^ k →
      (hex_digits fuel n acc).length ≤ acc.length + k := by
  induction fuel with
  | zero => intro k n acc _ _; simp [hex_digits]
  | succ fuel ih =>
    intro k n acc hk hn
    unfold hex_digits
    by_cases h0 : n / 16 = 0
    · simp only [h0, if_true, List.length_cons]
      omega
    · simp only [h0, if_false]
      have hk2 : 2 ≤ k := by
        by_contra hlt
        have : k = 1 := by omega
        subst this
        have : n / 16 = 0 := Nat.div_eq_of_lt (by simpa using hn)
        exact h0 this
      have hdiv : n / 16 < 16 ^ (k - 1) := by
        apply Nat.div_lt_of_lt_mul
        have : 16 * 16 ^ (k - 1) = 16 ^ k := by
          rw [← pow_succ']
          congr 1
          omega
        omega
      have := ih (k - 1) (n / 16) (hex_digit (n % 16) :: acc) (by omega) hdiv
      simp only [List.length_cons] at this
      omega

theorem fmt_X_length (v : Nat) (hv : v < 2 ^ 32) : (fmt_X v).length ≤ 8 := by
  have := hex_digits_length (v + 1) 8 v [] (by omega) (by norm_num; omega)
  simpa [fmt_X] using this

theorem snprintf_X_not_truncated (v : Nat) (hv : v < 2 ^ 32) :
    (snprintf_X 16 v).1.take (snprintf_X 16 v).2 = fmt_X v ++ CRLF := by
  have hl := fmt_X_length v hv
  have hlen : (fmt_X v ++ CRLF).length ≤ 15 := by
    simp [CRLF]
    omega
  have htake : (fmt_X v ++ CRLF).take 15 = fmt_X v ++ CRLF := List.take_of_length_le hlen
  simp only [snprintf_X, Nat.add_one_sub_one, htake]
  exact List.take_left' rfl

theorem evbuffer_add_add (s : Bridge) (a b : Bytes) :
    evbuffer_add (evbuffer_add s a) b = evbuffer_add s (a ++ b) := by
  simp [evbuffer_add]

theorem evbuffer_add_nil (s : Bridge) : evbuffer_add s [] = s := by
  simp [evbuffer_add]

theorem on_downstream_body_eq (s : Bridge) (downstream : Ptr) (d : Downstream) (data : Bytes)
    (h : s.heap downstream = some d) :
    on_downstream_body s downstream data
      = some (evbuffer_add s (if d.chunked_response then chunk_frame data else data), 0) := by
  have hv : to_unsigned_int data.length < 2 ^ 32 := Nat.mod_lt _ (by norm_num)
  simp only [on_downstream_body, h]
  cases hc : d.chunked_response
  · simp
  · simp only [if_true, snprintf_X_not_truncated _ hv, chunk_frame, evbuffer_add_add,
      List.append_assoc]

theorem deliver_fragments_eq (frags : List Bytes) :
    ∀ (s : Bridge) (downstream : Ptr) (d : Downstream), s.heap downstream = some d →
      deliver_fragments frags s downstream
        = some (evbuffer_add s
            (frags.map (fun f => if d.chunked_response then chunk_frame f else f)).flatten) := by
  induction frags with
  | nil => intro s downstream d _; simp [deliver_fragments, evbuffer_add_nil]
  | cons f rest ih =>
    intro s downstream d h
    simp only [deliver_fragments, on_downstream_body_eq s downstream d f h]
    rw [ih (evbuffer_add s (if d.chunked_response then chunk_frame f else f)) downstream d h]
    simp [evbuffer_add_add]

theorem on_downstream_body_complete_eq (s : Bridge) (downstream : Ptr) (d : Downstream)
    (h : s.heap downstream = some d) :
    on_downstream_body_complete s downstream
      = some ({ evbuffer_add s (if d.chunked_response then "0\r\n\r\n".toList else []) with
          should_close_after_write :=
            if d.request_connection_close then true else s.should_close_after_write }, 0) := by
  simp only [on_downstream_body_complete, h]
  cases d.chunked_response <;> cases d.request_connection_close <;> simp [evbuffer_add]

theorem deliver_body_eq (frags : List Bytes) (s : Bridge) (downstream : Ptr) (d : Downstream)
    (h : s.heap downstream = some d) (hc : d.chunked_response = true) :
    (deliver_body frags s downstream).map (fun r => r.output)
      = some (s.output ++ (frags.map chunk_frame).flatten ++ "0\r\n\r\n".toList) := by
  simp only [deliver_body, deliver_fragments_eq frags s downstream d h]
  rw [on_downstream_body_complete_eq
    (evbuffer_add s (frags.map (fun f => if d.chunked_response then chunk_frame f else f)).flatten)
    downstream d h]
  simp [hc, evbuffer_add]

/-! ## C1, C2: the response header block -/

theorem on_downstream_header_complete_eq (env : Env) (s : Bridge) (downstream : Ptr)
    (d : Downstream) (h : s.heap downstream = some d) :
    on_downstream_header_complete env s downstream
      = some (evbuffer_add s
          ("HTTP/1.1 ".toList ++ env.get_status_string d.response_http_status ++ CRLF
            ++ ((kept_headers d.response_headers).map (forwarded_line env)).flatten
            ++ (if d.request_connection_close then "Connection: close".toList ++ CRLF else [])
            ++ CRLF), 0) := by
  simp only [on_downstream_header_complete, h, response_header_block,
    append_response_headers_eq]
  cases d.request_connection_close
  · simp
  · simp [CRLF]

/-- What `on_downstream_header_complete` writes, with the comparisons the
code makes (each name as the C string `name.c_str()`); the bytes do not depend
on the HTTP version the backend reported. -/
theorem on_downstream_header_complete_written (env : Env) (s : Bridge) (downstream : Ptr) (d : Downstream)
    (h : s.heap downstream = some d) :
    on_downstream_header_complete env s downstream
      = some ({ s with output := s.output ++
            ("HTTP/1.1 ".toList ++ env.get_status_string d.response_http_status ++ CRLF
              ++ ((d.response_headers.filter (fun b =>
                      !(util.strieq (c_str b.1) "keep-alive".toList ||
                        util.strieq (c_str b.1) "connection".toList ||
                        util.strieq (c_str b.1) "proxy-connection".toList))).map
                    (fun b =>
                      if util.strieq (c_str b.1) "server".toList
                      then "Server: ".toList ++ env.server_name ++ CRLF
                      else b.1 ++ ": ".toList ++ b.2 ++ CRLF)).flatten
              ++ (if d.request_connection_close then "Connection: close".toList ++ CRLF else [])
              ++ CRLF) }, 0)
    ∧ ∀ major minor : Nat,
        (on_downstream_header_complete env
            (s.store downstream { d with response_major := major, response_minor := minor })
            downstream).map (fun r => (r.1.output, r.2))
          = (on_downstream_header_complete env s downstream).map (fun r => (r.1.output, r.2)) := by
  constructor
  · rw [on_downstream_header_complete_eq env s downstream d h]
    rfl
  · intro major minor
    rw [on_downstream_header_complete_eq env s downstream d h,
      on_downstream_header_complete_eq env _ downstream
        { d with response_major := major, response_minor := minor }
        (by simp [Bridge.store])]
    rfl

theorem specified_header_lines_of_no_nul (env : Env) (hs : Headers)
    (hn : ∀ b ∈ hs, Char.ofNat 0 ∉ b.1) :
    ((kept_headers hs).map (forwarded_line env)).flatten = specified_header_lines env hs := by
  induction hs with
  | nil => rfl
  | cons b rest ih =>
    have hb : c_str b.1 = b.1 := c_str_eq_self b.1 (hn b (List.mem_cons_self _ _))
    have ih1 := ih (fun x hx => hn x (List.mem_cons_of_mem _ hx))
    unfold specified_header_lines at ih1 ⊢
    unfold kept_headers at ih1 ⊢
    simp only [List.filter_cons, hb]
    split
    · simp only [List.map_cons, List.flatten_cons, forwarded_line, hb]
      rw [ih1]
    · exact ih1

/-- Where no header name holds a NUL byte, the header block written is the one
the specification words. -/
theorem on_downstream_header_complete_as_specified (env : Env) (s : Bridge) (downstream : Ptr)
    (d : Downstream) (h : s.heap downstream = some d)
    (hn : ∀ b ∈ d.response_headers, Char.ofNat 0 ∉ b.1) :
    on_downstream_header_complete env s downstream
      = some (evbuffer_add s (specified_header_block env d), 0) := by
  rw [on_downstream_header_complete_eq env s downstream d h,
    specified_header_lines_of_no_nul env d.response_headers hn]
  rfl

/-- C1 fails where a header name holds a NUL byte: the code compares
`name.c_str()`, the name cut at its first NUL, so the header named
`connection\0x` is dropped and the header named `server\0x` is rewritten,
although neither name equals connection or server in any letter case; the
claim has both forwarded verbatim. -/
theorem C1_names_cut_at_nul :
    (on_downstream_header_complete sample_env (sample_bridge nul_named_response) 0).map
        (fun r => (r.1.output, r.2))
      = some ("HTTP/1.1 200 OK\r\nX-Foo: bar\r\nServer: shrpx\r\n\r\n".toList, 0)
    ∧ specified_header_block sample_env nul_named_response
      = "HTTP/1.1 200 OK\r\nconnection\x00x: v\r\nX-Foo: bar\r\nserver\x00x: w\r\n\r\n".toList
    ∧ util.strieq "connection\x00x".toList "connection".toList = false
    ∧ util.strieq "connection\x00x".toList "keep-alive".toList = false
    ∧ util.strieq "connection\x00x".toList "proxy-connection".toList = false
    ∧ util.strieq "server\x00x".toList "server".toList = false
    ∧ c_str "connection\x00x".toList = "connection".toList
    ∧ c_str "server\x00x".toList = "server".toList := by
  refine ⟨by decide, by decide, by decide, by decide, by decide, by decide, by decide, by decide⟩

/-- C2: the header entries `on_downstream_header_complete` writes after the
status line are the kept backend headers (none of them named keep-alive,
connection or proxy-connection in any letter case) with the server header
rewritten, followed by `Connection: close` when the request's
connection-close flag is set. No written entry is named keep-alive or
proxy-connection, and the written entries named connection are exactly the
one entry `Connection: close` when the flag is set and none otherwise,
whatever the backend headers are. -/
theorem C2_hop_by_hop_not_forwarded (env : Env) (s : Bridge) (downstream : Ptr)
    (d : Downstream) (h : s.heap downstream = some d) :
    (on_downstream_header_complete env s downstream).map (fun r => r.1.output)
      = some (s.output ++ ("HTTP/1.1 ".toList ++ env.get_status_string d.response_http_status
          ++ CRLF ++ render_entries (written_entries env d) ++ CRLF))
    ∧ (∀ b ∈ kept_headers d.response_headers,
        util.strieq b.1 "keep-alive".toList = false ∧
        util.strieq b.1 "connection".toList = false ∧
        util.strieq b.1 "proxy-connection".toList = false)
    ∧ (∀ e ∈ written_entries env d,
        util.strieq e.1 "keep-alive".toList = false ∧
        util.strieq e.1 "proxy-connection".toList = false)
    ∧ (written_entries env d).filter (fun e => util.strieq e.1 "connection".toList)
        = (if d.request_connection_close then [("Connection".toList, "close".toList)] else []) := by
  refine ⟨?_, ?_, ?_, ?_⟩
  · rw [on_downstream_header_complete_eq env s downstream d h, render_written_entries]
    simp [evbuffer_add]
  · intro b hb
    exact not_named_of_not_ignored b.1 (kept_headers_not_ignored _ b hb)
  · intro e he
    unfold written_entries at he
    rcases List.mem_append.mp he with he | he
    · have := written_entries_names env d e he
      exact ⟨this.1, this.2.2⟩
    · cases hc : d.request_connection_close
      · simp [hc] at he
      · simp only [hc, if_true, List.mem_singleton] at he
        subst he
        decide
  · unfold written_entries
    rw [List.filter_append]
    have h1 : List.filter (fun e => util.strieq e.1 "connection".toList)
        ((kept_headers d.response_headers).map
          (fun h => if util.strieq (c_str h.1) "server".toList
                    then ("Server".toList, env.server_name) else h)) = [] := by
      rw [List.filter_eq_nil_iff]
      intro e he
      rw [(written_entries_names env d e he).2.1]
      exact Bool.false_ne_true
    rw [h1]
    cases d.request_connection_close
    · rfl
    · rfl

/-- C2 at a sample response whose request asked for connection close: the
backend's `Connection: keep-alive` is gone and the only Connection entry is
`Connection: close`. -/
theorem C2_hop_by_hop_not_forwarded_witness :
    (sample_bridge { sample_response with request_connection_close := true }).heap 0
      = some { sample_response with request_connection_close := true } ∧
    (on_downstream_header_complete sample_env
        (sample_bridge { sample_response with request_connection_close := true }) 0).map
        (fun r => r.1.output)
      = some ("HTTP/1.1 200 OK\r\nX-Foo: bar\r\nServer: shrpx\r\nConnection: close\r\n\r\n".toList) :=
  ⟨rfl, by
    rw [(C2_hop_by_hop_not_forwarded sample_env
      (sample_bridge { sample_response with request_connection_close := true }) 0
      { sample_response with request_connection_close := true } rfl).1]
    decide⟩

/-! ## C4 to C10: body framing, error replies and backend events -/

/-- `https_downstream_eventcb` compares nothing with the front of the queue:
were the queue `[1, 2]`, a timeout for exchange 2 would pop exchange 1 and
destroy exchange 2. -/
theorem eventcb_at_two_exchanges :
    (https_downstream_eventcb sample_env {} two_exchanges BEV_EVENT_TIMEOUT 2).map
        (fun s => (s.downstream_queue_, s.destroyed.map Prod.fst,
                   (s.heap 1).isSome, (s.heap 2).isSome))
      = some ([2], [2], true, false) := by
  decide

theorem chunk_frame_of_lt (data : Bytes) (h : data.length < 2 ^ 32) :
    chunk_frame data = fmt_X data.length ++ CRLF ++ data := by
  unfold chunk_frame to_unsigned_int
  rw [Nat.mod_eq_of_lt h]

theorem chunk_frame_of_length_wrap (data : Bytes) (h : data.length = 2 ^ 32) :
    chunk_frame data = "0\r\n".toList ++ data := by
  unfold chunk_frame
  rw [h]
  rfl

/-- C4 fails for a fragment of 2^32 bytes of a chunked response:
`on_downstream_body` writes the chunk size `0` (the length cast to
`unsigned int`) before the 2^32 bytes, where the length in hexadecimal is
`100000000`. -/
theorem C4_chunk_size_truncated_to_32_bits :
    (on_downstream_body (sample_bridge sample_chunked) 0 (List.replicate (2 ^ 32) 'x')).map
        (fun r => (r.1.output, r.2))
      = some ("0\r\n".toList ++ List.replicate (2 ^ 32) 'x', 0)
    ∧ (List.replicate (2 ^ 32) 'x').length = 4294967296
    ∧ fmt_X 4294967296 = "100000000".toList := by
  refine ⟨?_, ?_, ?_⟩
  · rw [on_downstream_body_eq (sample_bridge sample_chunked) 0 sample_chunked _ rfl]
    have hc : sample_chunked.chunked_response = true := rfl
    rw [hc, if_pos rfl, chunk_frame_of_length_wrap _ (List.length_replicate _ _)]
    rfl
  · rw [List.length_replicate]
    norm_num
  · decide

/-- C5: `on_downstream_body_complete` appends the five bytes `0 CR LF CR LF`
when the response is chunked and nothing otherwise, sets the
close-after-write flag when the request's connection-close flag is set and
leaves it unchanged otherwise, and returns 0. So for a chunked response
delivered as any sequence of fragments followed by one completion, the
output grows by the fragments' frames, written by `on_downstream_body`,
followed by the terminal marker, written once and last. -/
theorem C5_body_complete (s : Bridge) (downstream : Ptr) (d : Downstream)
    (h : s.heap downstream = some d) :
    on_downstream_body_complete s downstream
      = some ({ s with
          output := s.output ++ (if d.chunked_response then "0\r\n\r\n".toList else []),
          should_close_after_write :=
            if d.request_connection_close then true else s.should_close_after_write }, 0)
    ∧ ("0\r\n\r\n".toList).length = 5
    ∧ (d.chunked_response = true → ∀ frags : List Bytes,
        (deliver_body frags s downstream).map (fun r => r.output)
          = some (s.output ++ (frags.map chunk_frame).flatten ++ "0\r\n\r\n".toList)) := by
  refine ⟨?_, rfl, ?_⟩
  · rw [on_downstream_body_complete_eq s downstream d h]
    rfl
  · intro hc frags
    exact deliver_body_eq frags s downstream d h hc

/-- C5 at the fragments of 10 and 5 bytes of the spec. -/
theorem C5_body_complete_witness :
    (sample_bridge sample_chunked).heap 0 = some sample_chunked ∧
    (deliver_body ["0123456789".toList, "abcde".toList] (sample_bridge sample_chunked) 0).map
        (fun r => r.output)
      = some ("A\r\n01234567895\r\nabcde0\r\n\r\n".toList) :=
  ⟨rfl, by
    rw [(C5_body_complete (sample_bridge sample_chunked) 0 sample_chunked rfl).2.2 rfl]
    decide⟩

/-- C6 fails for the single fragment `hello` of a chunked response: the
bytes written are `5 CRLF hello 0 CRLF CRLF`, with no CRLF after the chunk
data, and the chunked decoder rejects them; it accepts the same body with
that CRLF in place. -/
theorem C6_not_a_chunked_body :
    (deliver_body ["hello".toList] (sample_bridge sample_chunked) 0).map (fun r => r.output)
      = some "5\r\nhello0\r\n\r\n".toList
    ∧ chunked_decode "5\r\nhello0\r\n\r\n".toList = none
    ∧ chunked_decode "5\r\nhello\r\n0\r\n\r\n".toList = some "hello".toList
    ∧ chunked_decode "A\r\n0123456789\r\n5\r\nabcde\r\n0\r\n\r\n".toList
        = some "0123456789abcde".toList := by
  decide

theorem error_reply_eq (env : Env) (s : Bridge) (downstream : Ptr) (d : Downstream)
    (status_code : Int) (h : s.heap downstream = some d) :
    error_reply env s downstream status_code
      = some ((evbuffer_add s (error_reply_bytes env status_code)).store downstream
          { d with response_state := IOState.MSG_COMPLETE }) := by
  simp only [error_reply, evbuffer_add_add, error_reply_bytes]
  have : (evbuffer_add s
      ("HTTP/1.1 ".toList ++ env.get_status_string status_code ++ "\r\n".toList
        ++ "Server: ".toList ++ env.server_name ++ "\r\n".toList
        ++ "Content-Length: ".toList ++ fmt_decimal (env.create_error_html status_code).length
        ++ "\r\n".toList
        ++ "Content-Type: ".toList ++ "text/html; charset=UTF-8\r\n".toList
        ++ "\r\n".toList ++ env.create_error_html status_code)).heap downstream = some d := h
  rw [this]

/-- C7: `error_reply` appends to the client output exactly the status line
`HTTP/1.1 <status string>`, the Server header with the configured name,
`Content-Length` with the decimal byte length of the generated HTML, the
Content-Type header `text/html; charset=UTF-8`, an empty line and the HTML;
afterwards the exchange's response-state is MSG_COMPLETE. -/
theorem C7_error_reply (env : Env) (s : Bridge) (downstream : Ptr) (d : Downstream)
    (status_code : Int) (h : s.heap downstream = some d) :
    ∃ s1, error_reply env s downstream status_code = some s1
      ∧ s1.output = s.output ++
          ("HTTP/1.1 ".toList ++ env.get_status_string status_code ++ CRLF
            ++ "Server: ".toList ++ env.server_name ++ CRLF
            ++ "Content-Length: ".toList
            ++ (Nat.repr (env.create_error_html status_code).length).toList ++ CRLF
            ++ "Content-Type: text/html; charset=UTF-8".toList ++ CRLF
            ++ CRLF
            ++ env.create_error_html status_code)
      ∧ (s1.heap downstream).map (fun x => x.response_state) = some IOState.MSG_COMPLETE := by
  refine ⟨_, error_reply_eq env s downstream d status_code h, ?_, ?_⟩
  · simp [Bridge.store, evbuffer_add, error_reply_bytes, CRLF, fmt_decimal]
  · simp [Bridge.store]

/-- C7 at status 502 with the sample error page of 16 bytes. -/
theorem C7_error_reply_witness :
    (sample_bridge {}).heap 0 = some {} ∧
    (error_reply sample_env (sample_bridge {}) 0 502).map
        (fun s1 => (s1.output, (s1.heap 0).map (fun x => x.response_state)))
      = some (("HTTP/1.1 502 Bad Gateway\r\nServer: shrpx\r\nContent-Length: 16\r\n"
                ++ "Content-Type: text/html; charset=UTF-8\r\n\r\n<html>502</html>").toList,
              some IOState.MSG_COMPLETE) :=
  ⟨rfl, by
    obtain ⟨s1, h1, h2, h3⟩ := C7_error_reply sample_env (sample_bridge {}) 0 {} 502 rfl
    rw [h1, Option.map_some', h2, h3]
    decide⟩

theorem same_client_side_refl (s : Bridge) : same_client_side s s := ⟨rfl, rfl, rfl, rfl⟩

theorem same_client_side_trans (s s1 s2 : Bridge) (h1 : same_client_side s s1)
    (h2 : same_client_side s1 s2) : same_client_side s s2 := by
  obtain ⟨a1, a2, a3, a4⟩ := h1
  obtain ⟨b1, b2, b3, b4⟩ := h2
  exact ⟨b1.trans a1, b2.trans a2, b3.trans a3, b4.trans a4⟩

theorem with_last_downstream_spec (s : Bridge) (f : Downstream → Downstream) (rv : Int)
    (r : Bridge × Int) (h : with_last_downstream s f rv = some r) :
    same_client_side s r.1 ∧ r.1.downstream_queue_ = s.downstream_queue_ ∧ r.2 = rv := by
  unfold with_last_downstream at h
  cases hp : get_last_downstream s with
  | none => simp [hp] at h
  | some p =>
    cases hd : s.heap p with
    | none => simp [hp, hd] at h
    | some d =>
      simp only [hp, hd, Option.some.injEq] at h
      subst h
      exact ⟨⟨rfl, rfl, rfl, rfl⟩, rfl, rfl⟩

theorem htp_hooks_spec (s : Bridge) (c : HtpCall) (r : Bridge × Int)
    (h : htp_hooks s c = some r) :
    same_client_side s r.1
    ∧ r.1.downstream_queue_.length
        = s.downstream_queue_.length + (if c = HtpCall.on_msg_begin then 1 else 0)
    ∧ (r.2 ≠ 0 ↔ c = HtpCall.on_msg_complete) := by
  cases c with
  | on_msg_begin =>
    simp only [htp_hooks, htp_msg_begin, Option.some.injEq] at h
    subst h
    exact ⟨⟨rfl, rfl, rfl, rfl⟩, by simp [add_downstream], by simp⟩
  | method data =>
    obtain ⟨h1, h2, h3⟩ := with_last_downstream_spec s _ _ r h
    exact ⟨h1, by simp [h2], by simp [h3]⟩
  | uri data =>
    obtain ⟨h1, h2, h3⟩ := with_last_downstream_spec s _ _ r h
    exact ⟨h1, by simp [h2], by simp [h3]⟩
  | on_hdrs_begin major minor =>
    obtain ⟨h1, h2, h3⟩ := with_last_downstream_spec s _ _ r h
    exact ⟨h1, by simp [h2], by simp [h3]⟩
  | hdr_key data =>
    obtain ⟨h1, h2, h3⟩ := with_last_downstream_spec s _ _ r h
    exact ⟨h1, by simp [h2], by simp [h3]⟩
  | hdr_val data =>
    obtain ⟨h1, h2, h3⟩ := with_last_downstream_spec s _ _ r h
    exact ⟨h1, by simp [h2], by simp [h3]⟩
  | on_hdrs_complete =>
    obtain ⟨h1, h2, h3⟩ := with_last_downstream_spec s _ _ r h
    exact ⟨h1, by simp [h2], by simp [h3]⟩
  | body data =>
    obtain ⟨h1, h2, h3⟩ := with_last_downstream_spec s _ _ r h
    exact ⟨h1, by simp [h2], by simp [h3]⟩
  | on_msg_complete =>
    obtain ⟨h1, h2, h3⟩ := with_last_downstream_spec s _ _ r h
    exact ⟨h1, by simp [h2], by simp [h3]⟩

theorem run_hooks_spec (calls : List (HtpCall × Nat)) :
    ∀ (nread : Nat) (err : htpparse_error) (s : Bridge) (r : Bridge × Nat × htpparse_error),
      run_hooks calls nread err s = some r →
        same_client_side s r.1
        ∧ r.1.downstream_queue_.length = s.downstream_queue_.length + messages_begun calls
        ∧ r.2.2 = (if stopped_by_hook calls then htpparse_error.htparse_error_user else err) := by
  induction calls with
  | nil =>
    intro nread err s r h
    simp only [run_hooks, Option.some.injEq] at h
    subst h
    exact ⟨same_client_side_refl s, by simp [messages_begun], by simp [stopped_by_hook]⟩
  | cons cn rest ih =>
    intro nread err s r h
    obtain ⟨c, n⟩ := cn
    unfold run_hooks at h
    cases hh : htp_hooks s c with
    | none => simp [hh] at h
    | some r1 =>
      obtain ⟨s1, rv⟩ := r1
      obtain ⟨f1, f2, f3⟩ := htp_hooks_spec s c (s1, rv) hh
      simp only [hh] at h
      by_cases hrv : rv ≠ 0
      · have hc : c = HtpCall.on_msg_complete := f3.mp hrv
        simp only [hrv, if_true, Option.some.injEq, ne_eq, not_false_eq_true] at h
        subst h
        subst hc
        refine ⟨f1, ?_, ?_⟩
        · simpa [messages_begun] using f2
        · simp [stopped_by_hook]
      · have hc : c ≠ HtpCall.on_msg_complete := fun e => hrv (f3.mpr e)
        simp only [hrv, if_false] at h
        obtain ⟨g1, g2, g3⟩ := ih nread err s1 r h
        refine ⟨same_client_side_trans s s1 r.1 f1 g1, ?_, ?_⟩
        · simp only [messages_begun, hc, if_false]
          simp only at f2
          omega
        · simpa [stopped_by_hook, hc] using g3

theorem on_read_spec (env : Env) (feed : Feed) (s : Bridge) (r : Bridge × Int)
    (h : on_read env feed s = some r) :
    r.1.output = s.output ∧ r.1.destroyed = s.destroyed
    ∧ r.1.should_close_after_write = s.should_close_after_write
    ∧ r.1.downstream_queue_.length = s.downstream_queue_.length + messages_begun feed.calls
    ∧ r.1.read_enabled
        = (if final_error feed = htpparse_error.htparse_error_user then false
           else s.read_enabled) := by
  unfold on_read htparser_run at h
  cases hr : run_hooks feed.calls feed.nread feed.error s with
  | none => simp [hr] at h
  | some r1 =>
    obtain ⟨s1, n, htperr⟩ := r1
    obtain ⟨⟨f1, f2, f3, f4⟩, g, e⟩ := run_hooks_spec feed.calls _ _ s (s1, n, htperr) hr
    simp only at f1 f2 f3 f4 g e
    simp only [hr] at h
    have he : htperr = final_error feed := e
    cases htperr with
    | htparse_error_user =>
      simp only [if_true, Option.some.injEq] at h
      subst h
      rw [← he]
      exact ⟨f1, f2, f3, g, by simp⟩
    | htparse_error_none =>
      simp only [reduceCtorEq, if_false, ne_eq, not_true_eq_false, Option.some.injEq] at h
      subst h
      rw [← he]
      exact ⟨f1, f2, f3, g, by simp [evbuffer_drain, f4]⟩
    | htparse_error_generic =>
      simp only [reduceCtorEq, if_false, if_true, ne_eq, not_false_eq_true,
        Option.some.injEq] at h
      subst h
      rw [← he]
      exact ⟨f1, f2, f3, g, by simp [evbuffer_drain, f4]⟩

theorem resume_read_spec (env : Env) (feed : Feed) (s s1 : Bridge)
    (h : resume_read env feed s = some s1) :
    s1.output = s.output ∧ s1.destroyed = s.destroyed
    ∧ s1.should_close_after_write = s.should_close_after_write
    ∧ s1.downstream_queue_.length = s.downstream_queue_.length + messages_begun feed.calls
    ∧ s1.read_enabled
        = (if final_error feed = htpparse_error.htparse_error_user then false else true) := by
  unfold resume_read at h
  cases hr : on_read env feed { s with read_enabled := true } with
  | none => simp [hr] at h
  | some r =>
    simp only [hr, Option.some.injEq] at h
    subst h
    exact on_read_spec env feed _ r hr

theorem resume_read_idle (env : Env) (feed : Feed) (s : Bridge) (hc : feed.calls = []) :
    ∃ s1, resume_read env feed s = some s1
      ∧ s1.downstream_queue_ = s.downstream_queue_ := by
  unfold resume_read on_read htparser_run
  rw [hc]
  simp only [run_hooks]
  by_cases hu : feed.error = htpparse_error.htparse_error_user
  · simp [hu, evbuffer_drain]
  · by_cases hn : feed.error = htpparse_error.htparse_error_none
    · simp [hn, evbuffer_drain]
    · simp [hu, hn, evbuffer_drain]

theorem retire_spec (env : Env) (feed : Feed) (s s1 : Bridge) (downstream : Ptr)
    (h : retire env feed s downstream = some s1) :
    ∃ d, s.heap downstream = some d
      ∧ s1.output = s.output ∧ s1.destroyed = (downstream, d) :: s.destroyed
      ∧ s1.should_close_after_write = s.should_close_after_write
      ∧ s1.downstream_queue_.length + 1
          = s.downstream_queue_.length + messages_begun feed.calls
      ∧ s1.read_enabled
          = (if final_error feed = htpparse_error.htparse_error_user then false else true) := by
  unfold retire pop_downstream at h
  cases hq : s.downstream_queue_ with
  | nil => simp [hq] at h
  | cons q rest =>
    simp only [hq] at h
    unfold Bridge.delete at h
    cases hd : s.heap downstream with
    | none => simp [hd] at h
    | some d =>
      simp only [hd] at h
      obtain ⟨a1, a2, a3, a4, a5⟩ := resume_read_spec env feed _ s1 h
      refine ⟨d, rfl, a1, a2, a3, ?_, a5⟩
      simp only [List.length_cons] at a4 ⊢
      omega

theorem retire_idle (env : Env) (feed : Feed) (s : Bridge) (downstream : Ptr) (d : Downstream)
    (hd : s.heap downstream = some d) (hq : s.downstream_queue_ ≠ []) (hc : feed.calls = []) :
    ∃ s1, retire env feed s downstream = some s1
      ∧ s1.downstream_queue_ = s.downstream_queue_.tail := by
  unfold retire pop_downstream
  cases hs : s.downstream_queue_ with
  | nil => exact absurd hs hq
  | cons q rest =>
    simp only [Bridge.delete, hd]
    obtain ⟨s1, h1, h2⟩ := resume_read_idle env feed
      { s with downstream_queue_ := rest,
               heap := fun q => if q = downstream then none else s.heap q,
               destroyed := (downstream, d) :: s.destroyed } hc
    exact ⟨s1, h1, by simpa using h2⟩

theorem lor_eq_zero (a b : Nat) (h : a ||| b = 0) : a = 0 ∧ b = 0 := by
  constructor
  · apply Nat.eq_of_testBit_eq
    intro i
    have := congrArg (fun n => n.testBit i) h
    simp only [Nat.testBit_or, Nat.zero_testBit, Bool.or_eq_false_iff] at this
    simpa using this.1
  · apply Nat.eq_of_testBit_eq
    intro i
    have := congrArg (fun n => n.testBit i) h
    simp only [Nat.testBit_or, Nat.zero_testBit, Bool.or_eq_false_iff] at this
    simpa using this.2

theorem error_or_timeout_of_timeout (events : Nat) (h : events &&& BEV_EVENT_TIMEOUT ≠ 0) :
    events &&& (BEV_EVENT_ERROR ||| BEV_EVENT_TIMEOUT) ≠ 0 := by
  intro h0
  rw [Nat.and_or_distrib_left] at h0
  exact h (lor_eq_zero _ _ h0).2

theorem eventcb_error_eq (env : Env) (feed : Feed) (s : Bridge) (events : Nat)
    (downstream : Ptr) (d : Downstream) (h : s.heap downstream = some d)
    (hEOF : events &&& BEV_EVENT_EOF = 0)
    (hET : events &&& (BEV_EVENT_ERROR ||| BEV_EVENT_TIMEOUT) ≠ 0) :
    https_downstream_eventcb env feed s events downstream
      = if d.response_state = IOState.INITIAL then
          retire env feed
            ((evbuffer_add s (error_reply_bytes env
                (if events &&& BEV_EVENT_TIMEOUT ≠ 0 then 504 else 502))).store downstream
              { d with response_state := IOState.MSG_COMPLETE }) downstream
        else retire env feed s downstream := by
  unfold https_downstream_eventcb
  simp only [h, hEOF, ne_eq, not_true_eq_false, if_false, hET, not_false_eq_true, if_true]
  by_cases hi : d.response_state = IOState.INITIAL
  · simp only [hi, if_true, error_reply_eq env s downstream d _ h]
  · simp only [hi, if_false]

theorem eventcb_eof_eq (env : Env) (feed : Feed) (s : Bridge) (events : Nat)
    (downstream : Ptr) (d : Downstream) (h : s.heap downstream = some d)
    (hEOF : events &&& BEV_EVENT_EOF ≠ 0) :
    https_downstream_eventcb env feed s events downstream
      = if d.response_state = IOState.HEADER_COMPLETE then
          retire env feed
            { evbuffer_add s (if d.chunked_response then "0\r\n\r\n".toList else []) with
              should_close_after_write :=
                if d.request_connection_close then true else s.should_close_after_write }
            downstream
        else if d.response_state = IOState.MSG_COMPLETE then retire env feed s downstream
        else
          retire env feed
            ((evbuffer_add s (error_reply_bytes env 502)).store downstream
              { d with response_state := IOState.MSG_COMPLETE }) downstream := by
  unfold https_downstream_eventcb
  simp only [h, hEOF, ne_eq, not_false_eq_true, if_true]
  by_cases hh : d.response_state = IOState.HEADER_COMPLETE
  · simp only [hh, if_true, on_downstream_body_complete_eq s downstream d h, Option.map_some']
  · by_cases hm : d.response_state = IOState.MSG_COMPLETE
    · simp only [hm, reduceCtorEq, if_false, if_true]
    · simp only [hh, hm, if_false, error_reply_eq env s downstream d _ h]

/-- C8: for an event without EOF delivered to a live exchange, when the event
includes error or timeout: with response-state INITIAL the handler extends
the client output by exactly one error reply, of status 504 if the event
includes timeout and 502 otherwise; with response-state HEADER_COMPLETE or
MSG_COMPLETE it writes nothing; and it does return when the queue is not
empty and the parse pass of `resume_read` fires no hook. An event with none
of EOF, error and timeout leaves the whole connection state unchanged. -/
theorem C8_error_or_timeout (env : Env) (feed : Feed) (s : Bridge) (events : Nat)
    (downstream : Ptr) (d : Downstream) (h : s.heap downstream = some d)
    (hEOF : events &&& BEV_EVENT_EOF = 0) :
    (events &&& (BEV_EVENT_ERROR ||| BEV_EVENT_TIMEOUT) ≠ 0 →
      (d.response_state = IOState.INITIAL →
        ∀ s1, https_downstream_eventcb env feed s events downstream = some s1 →
          s1.output = s.output ++ error_reply_bytes env
            (if events &&& BEV_EVENT_TIMEOUT ≠ 0 then 504 else 502))
      ∧ (d.response_state = IOState.HEADER_COMPLETE ∨ d.response_state = IOState.MSG_COMPLETE →
        ∀ s1, https_downstream_eventcb env feed s events downstream = some s1 →
          s1.output = s.output)
      ∧ (s.downstream_queue_ ≠ [] → feed.calls = [] →
        ∃ s1, https_downstream_eventcb env feed s events downstream = some s1))
    ∧ (events &&& (BEV_EVENT_ERROR ||| BEV_EVENT_TIMEOUT) = 0 →
        https_downstream_eventcb env feed s events downstream = some s) := by
  constructor
  · intro hET
    rw [eventcb_error_eq env feed s events downstream d h hEOF hET]
    refine ⟨?_, ?_, ?_⟩
    · intro hi s1 hs1
      rw [if_pos hi] at hs1
      obtain ⟨_, _, ho, _⟩ := retire_spec env feed _ s1 downstream hs1
      rw [ho]
      rfl
    · intro hs s1 hs1
      have hi : d.response_state ≠ IOState.INITIAL := by
        rcases hs with e | e <;> rw [e] <;> exact fun x => IOState.noConfusion x
      rw [if_neg hi] at hs1
      obtain ⟨_, _, ho, _⟩ := retire_spec env feed _ s1 downstream hs1
      exact ho
    · intro hq hc
      by_cases hi : d.response_state = IOState.INITIAL
      · rw [if_pos hi]
        obtain ⟨s1, h1, _⟩ := retire_idle env feed
          ((evbuffer_add s (error_reply_bytes env
              (if events &&& BEV_EVENT_TIMEOUT ≠ 0 then 504 else 502))).store downstream
            { d with response_state := IOState.MSG_COMPLETE }) downstream
          { d with response_state := IOState.MSG_COMPLETE } (by simp [Bridge.store]) hq hc
        exact ⟨s1, h1⟩
      · rw [if_neg hi]
        obtain ⟨s1, h1, _⟩ := retire_idle env feed s downstream d h hq hc
        exact ⟨s1, h1⟩
  · intro hET
    unfold https_downstream_eventcb
    simp only [h, hEOF, hET, ne_eq, not_true_eq_false, if_false]

/-- C8 at an error event for the one exchange of a connection. -/
theorem C8_error_or_timeout_witness :
    (sample_bridge {}).heap 0 = some {} ∧ BEV_EVENT_ERROR &&& BEV_EVENT_EOF = 0 ∧
    (https_downstream_eventcb sample_env {} (sample_bridge {}) BEV_EVENT_ERROR 0).map
        (fun s1 => s1.output)
      = some ("HTTP/1.1 502 Bad Gateway\r\nServer: shrpx\r\nContent-Length: 16\r\n"
                ++ "Content-Type: text/html; charset=UTF-8\r\n\r\n<html>502</html>").toList :=
  ⟨rfl, by decide, by
    have hC := (C8_error_or_timeout sample_env {} (sample_bridge {}) BEV_EVENT_ERROR 0 {}
      rfl (by decide)).1 (by decide)
    obtain ⟨s1, hs1⟩ := hC.2.2 (by decide) rfl
    rw [hs1, Option.map_some', hC.1 rfl s1 hs1]
    decide⟩

/-- C9 fails when the next pipelined request is already buffered: after the
timeout of the front exchange the parse pass of `resume_read` creates the
next exchange and stops at its end, so the queue is as long as before and
read notifications are disabled. -/
theorem C9_counterexample :
    waiting_bridge.downstream_queue_ = [0]
    ∧ (waiting_bridge.heap 0).map (fun d => d.response_state) = some IOState.INITIAL
    ∧ waiting_bridge.output = []
    ∧ (https_downstream_eventcb sample_env pipelined_request_feed waiting_bridge
          BEV_EVENT_TIMEOUT 0).map
        (fun s1 => (s1.downstream_queue_, s1.downstream_queue_.length, s1.read_enabled))
      = some ([1], 1, false) := by
  decide

/-- C9 amended: a timeout event (without EOF) for the front exchange, whose
response-state is INITIAL, extends the client output by exactly one 504
reply; the queue afterwards is one shorter than before plus one element for
each message-begin the parse pass of `resume_read` executes; read
notifications are enabled unless that parse pass ends with
`htparse_error_user`. When the parse pass fires no hook and reports no
user stop, the handler returns, the queue is the former queue without its
front and read notifications are enabled. -/
theorem C9_timeout_on_front (env : Env) (feed : Feed) (s : Bridge) (events : Nat)
    (front : Ptr) (rest : List Ptr) (d : Downstream)
    (hq : s.downstream_queue_ = front :: rest) (h : s.heap front = some d)
    (hi : d.response_state = IOState.INITIAL)
    (hEOF : events &&& BEV_EVENT_EOF = 0) (hT : events &&& BEV_EVENT_TIMEOUT ≠ 0) :
    (∀ s1, https_downstream_eventcb env feed s events front = some s1 →
        s1.output = s.output ++ error_reply_bytes env 504
        ∧ s1.downstream_queue_.length + 1
            = s.downstream_queue_.length + messages_begun feed.calls
        ∧ s1.read_enabled
            = (if final_error feed = htpparse_error.htparse_error_user then false else true))
    ∧ (feed.calls = [] → feed.error ≠ htpparse_error.htparse_error_user →
        ∃ s1, https_downstream_eventcb env feed s events front = some s1
          ∧ s1.output = s.output ++ error_reply_bytes env 504
          ∧ s1.downstream_queue_ = rest
          ∧ s1.read_enabled = true) := by
  have hET := error_or_timeout_of_timeout events hT
  have key : ∀ s1, https_downstream_eventcb env feed s events front = some s1 →
        s1.output = s.output ++ error_reply_bytes env 504
        ∧ s1.downstream_queue_.length + 1
            = s.downstream_queue_.length + messages_begun feed.calls
        ∧ s1.read_enabled
            = (if final_error feed = htpparse_error.htparse_error_user then false else true) := by
    intro s1 hs1
    rw [eventcb_error_eq env feed s events front d h hEOF hET, if_pos hi, if_pos hT] at hs1
    obtain ⟨_, _, ho, _, _, hl, hr⟩ := retire_spec env feed _ s1 front hs1
    exact ⟨by rw [ho]; rfl, hl, hr⟩
  refine ⟨key, ?_⟩
  intro hc he
  have hdef := retire_idle env feed
    ((evbuffer_add s (error_reply_bytes env 504)).store front
      { d with response_state := IOState.MSG_COMPLETE }) front
    { d with response_state := IOState.MSG_COMPLETE } (by simp [Bridge.store])
    (by simp [Bridge.store, evbuffer_add, hq]) hc
  obtain ⟨s1, h1, h2⟩ := hdef
  have hs1 : https_downstream_eventcb env feed s events front = some s1 := by
    rw [eventcb_error_eq env feed s events front d h hEOF hET, if_pos hi, if_pos hT]
    exact h1
  obtain ⟨k1, _, k3⟩ := key s1 hs1
  refine ⟨s1, hs1, k1, ?_, ?_⟩
  · rw [h2]
    simp [Bridge.store, evbuffer_add, hq]
  · rw [k3]
    simp [final_error, hc, stopped_by_hook, he]

/-- C9 amended, at a connection with nothing to parse after the timeout. -/
theorem C9_timeout_on_front_witness :
    waiting_bridge.downstream_queue_ = [0]
    ∧ waiting_bridge.heap 0
        = some { request_state := IOState.MSG_COMPLETE, connection_started := true }
    ∧ BEV_EVENT_TIMEOUT &&& BEV_EVENT_EOF = 0 ∧ BEV_EVENT_TIMEOUT &&& BEV_EVENT_TIMEOUT ≠ 0
    ∧ (https_downstream_eventcb sample_env {} waiting_bridge BEV_EVENT_TIMEOUT 0).map
        (fun s1 => (s1.output, s1.downstream_queue_, s1.read_enabled))
      = some (("HTTP/1.1 504 Gateway Timeout\r\nServer: shrpx\r\nContent-Length: 16\r\n"
                ++ "Content-Type: text/html; charset=UTF-8\r\n\r\n<html>504</html>").toList,
              [], true) :=
  ⟨rfl, rfl, by decide, by decide, by
    obtain ⟨s1, hs1, a1, a2, a3⟩ :=
      (C9_timeout_on_front sample_env {} waiting_bridge BEV_EVENT_TIMEOUT 0 []
        { request_state := IOState.MSG_COMPLETE, connection_started := true }
        rfl rfl rfl (by decide) (by decide)).2 rfl (by decide)
    rw [hs1, Option.map_some', a1, a2, a3]
    decide⟩

/-- C10 fails on the response-state at retirement: after an EOF for an
exchange with response-state HEADER_COMPLETE the destroyed exchange still has
response-state HEADER_COMPLETE. -/
theorem C10_counterexample :
    (sample_bridge sample_response).heap 0 = some sample_response
    ∧ sample_response.response_state = IOState.HEADER_COMPLETE
    ∧ BEV_EVENT_EOF &&& BEV_EVENT_EOF ≠ 0
    ∧ (https_downstream_eventcb sample_env {} (sample_bridge sample_response)
          BEV_EVENT_EOF 0).map
        (fun s1 => (s1.output, s1.destroyed.map (fun x => (x.1, x.2.response_state))))
      = some ([], [(0, IOState.HEADER_COMPLETE)]) := by
  decide

/-- C10 amended: for an EOF event delivered to a live exchange, with
response-state HEADER_COMPLETE the handler fabricates body completion (the
terminal chunk marker if the response is chunked, close-after-write if the
request asked for it), writes no error reply and retires the exchange with
response-state still HEADER_COMPLETE; with INITIAL it writes exactly one 502
reply and the exchange is retired with response-state MSG_COMPLETE; with
MSG_COMPLETE it writes nothing. It does return when the queue is not empty
and the parse pass of `resume_read` fires no hook. -/
theorem C10_eof (env : Env) (feed : Feed) (s : Bridge) (events : Nat)
    (downstream : Ptr) (d : Downstream) (h : s.heap downstream = some d)
    (hEOF : events &&& BEV_EVENT_EOF ≠ 0) :
    (d.response_state = IOState.HEADER_COMPLETE →
      ∀ s1, https_downstream_eventcb env feed s events downstream = some s1 →
        s1.output = s.output ++ (if d.chunked_response then "0\r\n\r\n".toList else [])
        ∧ s1.should_close_after_write
            = (if d.request_connection_close then true else s.should_close_after_write)
        ∧ s1.destroyed = (downstream, d) :: s.destroyed)
    ∧ (d.response_state = IOState.INITIAL →
      ∀ s1, https_downstream_eventcb env feed s events downstream = some s1 →
        s1.output = s.output ++ error_reply_bytes env 502
        ∧ s1.destroyed
            = (downstream, { d with response_state := IOState.MSG_COMPLETE }) :: s.destroyed)
    ∧ (d.response_state = IOState.MSG_COMPLETE →
      ∀ s1, https_downstream_eventcb env feed s events downstream = some s1 →
        s1.output = s.output ∧ s1.destroyed = (downstream, d) :: s.destroyed)
    ∧ (s.downstream_queue_ ≠ [] → feed.calls = [] →
        ∃ s1, https_downstream_eventcb env feed s events downstream = some s1) := by
  rw [eventcb_eof_eq env feed s events downstream d h hEOF]
  refine ⟨?_, ?_, ?_, ?_⟩
  · intro hh s1 hs1
    rw [if_pos hh] at hs1
    obtain ⟨d1, hd1, ho, hd, hc, _⟩ := retire_spec env feed _ s1 downstream hs1
    have e : d1 = d := by
      have : some d1 = some d := hd1.symm.trans h
      exact Option.some.inj this
    subst e
    exact ⟨by rw [ho]; rfl, by rw [hc], by rw [hd]; rfl⟩
  · intro hi s1 hs1
    have n1 : d.response_state ≠ IOState.HEADER_COMPLETE := by
      rw [hi]; exact fun x => IOState.noConfusion x
    have n2 : d.response_state ≠ IOState.MSG_COMPLETE := by
      rw [hi]; exact fun x => IOState.noConfusion x
    rw [if_neg n1, if_neg n2] at hs1
    obtain ⟨d1, hd1, ho, hd, _⟩ := retire_spec env feed _ s1 downstream hs1
    have e : d1 = { d with response_state := IOState.MSG_COMPLETE } := by
      have : some d1 = some { d with response_state := IOState.MSG_COMPLETE } :=
        hd1.symm.trans (by simp [Bridge.store])
      exact Option.some.inj this
    subst e
    exact ⟨by rw [ho]; rfl, by rw [hd]; rfl⟩
  · intro hm s1 hs1
    have n1 : d.response_state ≠ IOState.HEADER_COMPLETE := by
      rw [hm]; exact fun x => IOState.noConfusion x
    rw [if_neg n1, if_pos hm] at hs1
    obtain ⟨d1, hd1, ho, hd, _⟩ := retire_spec env feed _ s1 downstream hs1
    have e : d1 = d := by
      have : some d1 = some d := hd1.symm.trans h
      exact Option.some.inj this
    subst e
    exact ⟨ho, hd⟩
  · intro hq hc
    by_cases hh : d.response_state = IOState.HEADER_COMPLETE
    · rw [if_pos hh]
      obtain ⟨s1, h1, _⟩ := retire_idle env feed
        { evbuffer_add s (if d.chunked_response then "0\r\n\r\n".toList else []) with
          should_close_after_write :=
            if d.request_connection_close then true else s.should_close_after_write }
        downstream d h hq hc
      exact ⟨s1, h1⟩
    · rw [if_neg hh]
      by_cases hm : d.response_state = IOState.MSG_COMPLETE
      · rw [if_pos hm]
        obtain ⟨s1, h1, _⟩ := retire_idle env feed s downstream d h hq hc
        exact ⟨s1, h1⟩
      · rw [if_neg hm]
        obtain ⟨s1, h1, _⟩ := retire_idle env feed
          ((evbuffer_add s (error_reply_bytes env 502)).store downstream
            { d with response_state := IOState.MSG_COMPLETE }) downstream
          { d with response_state := IOState.MSG_COMPLETE } (by simp [Bridge.store]) hq hc
        exact ⟨s1, h1⟩

/-- C10 amended, at an EOF after the headers of a chunked response whose
request asked for connection close. -/
theorem C10_eof_witness :
    (sample_bridge { sample_chunked with request_connection_close := true }).heap 0
      = some { sample_chunked with request_connection_close := true }
    ∧ BEV_EVENT_EOF &&& BEV_EVENT_EOF ≠ 0
    ∧ (https_downstream_eventcb sample_env {}
          (sample_bridge { sample_chunked with request_connection_close := true })
          BEV_EVENT_EOF 0).map
        (fun s1 => (s1.output, s1.should_close_after_write,
                    s1.destroyed.map (fun x => x.2.response_state)))
      = some ("0\r\n\r\n".toList, true, [IOState.HEADER_COMPLETE]) :=
  ⟨rfl, by decide, by
    have hC := C10_eof sample_env {}
      (sample_bridge { sample_chunked with request_connection_close := true })
      BEV_EVENT_EOF 0 { sample_chunked with request_connection_close := true } rfl
      (by decide)
    obtain ⟨s1, hs1⟩ := hC.2.2.2 (by decide) rfl
    obtain ⟨a1, a2, a3⟩ := hC.1 rfl s1 hs1
    rw [hs1, Option.map_some', a1, a2, a3]
    decide⟩

/-! ## C11 to C20: the read entry point, the parser callbacks and runs -/

theorem with_last_downstream_input (s : Bridge) (f : Downstream → Downstream) (rv : Int)
    (r : Bridge × Int) (h : with_last_downstream s f rv = some r) :
    r.1.input = s.input ∧ r.1.next_ptr = s.next_ptr := by
  unfold with_last_downstream at h
  cases hp : get_last_downstream s with
  | none => simp [hp] at h
  | some p =>
    cases hd : s.heap p with
    | none => simp [hp, hd] at h
    | some d =>
      simp only [hp, hd, Option.some.injEq] at h
      subst h
      exact ⟨rfl, rfl⟩

theorem htp_hooks_input (s : Bridge) (c : HtpCall) (r : Bridge × Int)
    (h : htp_hooks s c = some r) : r.1.input = s.input := by
  cases c with
  | on_msg_begin =>
    simp only [htp_hooks, htp_msg_begin, Option.some.injEq] at h
    subst h
    rfl
  | method data => exact (with_last_downstream_input s _ _ r h).1
  | uri data => exact (with_last_downstream_input s _ _ r h).1
  | on_hdrs_begin major minor => exact (with_last_downstream_input s _ _ r h).1
  | hdr_key data => exact (with_last_downstream_input s _ _ r h).1
  | hdr_val data => exact (with_last_downstream_input s _ _ r h).1
  | on_hdrs_complete => exact (with_last_downstream_input s _ _ r h).1
  | body data => exact (with_last_downstream_input s _ _ r h).1
  | on_msg_complete => exact (with_last_downstream_input s _ _ r h).1

theorem run_hooks_input (calls : List (HtpCall × Nat)) :
    ∀ (nread : Nat) (err : htpparse_error) (s : Bridge) (r : Bridge × Nat × htpparse_error),
      run_hooks calls nread err s = some r →
        r.1.input = s.input ∧ r.2.1 = consumed calls nread := by
  induction calls with
  | nil =>
    intro nread err s r h
    simp only [run_hooks, Option.some.injEq] at h
    subst h
    exact ⟨rfl, rfl⟩
  | cons cn rest ih =>
    intro nread err s r h
    obtain ⟨c, n⟩ := cn
    unfold run_hooks at h
    cases hh : htp_hooks s c with
    | none => simp [hh] at h
    | some r1 =>
      obtain ⟨s1, rv⟩ := r1
      have hin := htp_hooks_input s c (s1, rv) hh
      obtain ⟨_, _, f3⟩ := htp_hooks_spec s c (s1, rv) hh
      simp only [hh] at h
      by_cases hrv : rv ≠ 0
      · have hc : c = HtpCall.on_msg_complete := f3.mp hrv
        simp only [hrv, if_true, Option.some.injEq, ne_eq, not_false_eq_true] at h
        subst h
        exact ⟨hin, by simp [consumed, hc]⟩
      · have hc : c ≠ HtpCall.on_msg_complete := fun e => hrv (f3.mpr e)
        simp only [hrv, if_false] at h
        obtain ⟨g1, g2⟩ := ih nread err s1 r h
        exact ⟨g1.trans hin, by simpa [consumed, hc] using g2⟩

/-- The result of `on_read` in terms of the result of `htparser_run`. -/
theorem on_read_eq (env : Env) (feed : Feed) (s s1 : Bridge) (n : Nat) (err : htpparse_error)
    (h : htparser_run feed s = some (s1, n, err)) :
    on_read env feed s
      = some ({ evbuffer_drain s1 (size_t_of_int (int_of_size_t n)) with
                  read_enabled :=
                    if err = htpparse_error.htparse_error_user then false else s1.read_enabled },
              if err ≠ htpparse_error.htparse_error_none ∧
                 err ≠ htpparse_error.htparse_error_user
              then env.SHRPX_ERR_HTTP_PARSE else 0) := by
  unfold on_read
  rw [h]
  cases err <;> simp [evbuffer_drain]

/-- C11: given the error the tokenizer reports after the feed, `on_read`
returns 0 when it is `none` or the application-requested stop and
`SHRPX_ERR_HTTP_PARSE` when it is a malformed-input error; with a sentinel
different from 0 it returns the sentinel if and only if the error is a
malformed-input error. -/
theorem C11_on_read_result (env : Env) (feed : Feed) (s s1 : Bridge) (n : Nat)
    (err : htpparse_error) (h : htparser_run feed s = some (s1, n, err)) :
    (err = htpparse_error.htparse_error_none ∨ err = htpparse_error.htparse_error_user →
        (on_read env feed s).map Prod.snd = some 0)
    ∧ (err ≠ htpparse_error.htparse_error_none ∧ err ≠ htpparse_error.htparse_error_user →
        (on_read env feed s).map Prod.snd = some env.SHRPX_ERR_HTTP_PARSE)
    ∧ (env.SHRPX_ERR_HTTP_PARSE ≠ 0 →
        ((on_read env feed s).map Prod.snd = some env.SHRPX_ERR_HTTP_PARSE
          ↔ err ≠ htpparse_error.htparse_error_none ∧
            err ≠ htpparse_error.htparse_error_user)) := by
  rw [on_read_eq env feed s s1 n err h]
  refine ⟨?_, ?_, ?_⟩
  · intro he
    rcases he with e | e <;> subst e <;> simp
  · intro he
    simp [he]
  · intro hne
    constructor
    · intro hr
      by_contra hc
      simp only [Option.map_some', hc, if_false, Option.some.injEq] at hr
      exact hne hr.symm
    · intro he
      simp [he]

/-- C11 at a feed of malformed bytes on a new connection. -/
theorem C11_on_read_result_witness :
    htparser_run malformed_feed (fresh_bridge "BAD\r\n".toList)
      = some (fresh_bridge "BAD\r\n".toList, 3, htpparse_error.htparse_error_generic)
    ∧ (on_read sample_env malformed_feed (fresh_bridge "BAD\r\n".toList)).map Prod.snd
        = some (-101) :=
  ⟨rfl, (C11_on_read_result sample_env malformed_feed (fresh_bridge "BAD\r\n".toList)
      (fresh_bridge "BAD\r\n".toList) 3 htpparse_error.htparse_error_generic rfl).2.1
      (by decide)⟩

/-- C12 fails: on a new connection with read notifications enabled, the
parse pass of one complete request ends with the application-requested stop
and `on_read` returns with read notifications disabled. -/
theorem C12_counterexample :
    (fresh_bridge pipelined_request).read_enabled = true
    ∧ (htparser_run pipelined_request_feed (fresh_bridge pipelined_request)).map
        (fun r => r.2.2) = some htpparse_error.htparse_error_user
    ∧ (on_read sample_env pipelined_request_feed (fresh_bridge pipelined_request)).map
        (fun r => (r.1.read_enabled, r.2)) = some (false, 0) := by
  decide

/-- C12 amended: when the tokenizer's outcome is the message-boundary stop,
`on_read` disables read notifications; on every other outcome it leaves them
as they were. -/
theorem C12_read_notifications (env : Env) (feed : Feed) (s s1 : Bridge) (n : Nat)
    (err : htpparse_error) (h : htparser_run feed s = some (s1, n, err)) :
    (err = htpparse_error.htparse_error_user →
        (on_read env feed s).map (fun r => r.1.read_enabled) = some false)
    ∧ (err ≠ htpparse_error.htparse_error_user →
        (on_read env feed s).map (fun r => r.1.read_enabled) = some s.read_enabled) := by
  have hs := (run_hooks_spec feed.calls feed.nread feed.error s (s1, n, err) h).1.2.2.2
  simp only at hs
  rw [on_read_eq env feed s s1 n err h]
  constructor
  · intro he
    simp [he]
  · intro he
    simp [he, hs]

/-- C12 amended, at a feed of malformed bytes: read notifications stay
enabled. -/
theorem C12_read_notifications_witness :
    htparser_run malformed_feed (fresh_bridge "BAD\r\n".toList)
      = some (fresh_bridge "BAD\r\n".toList, 3, htpparse_error.htparse_error_generic)
    ∧ (on_read sample_env malformed_feed (fresh_bridge "BAD\r\n".toList)).map
        (fun r => r.1.read_enabled) = some true :=
  ⟨rfl, (C12_read_notifications sample_env malformed_feed (fresh_bridge "BAD\r\n".toList)
      (fresh_bridge "BAD\r\n".toList) 3 htpparse_error.htparse_error_generic rfl).2
      (by decide)⟩

theorem drain_length_of_lt (n : Nat) (h : n < 2 ^ 31) :
    size_t_of_int (int_of_size_t n) = n := by
  unfold size_t_of_int int_of_size_t
  have h1 : n % 2 ^ 32 = n := Nat.mod_eq_of_lt (by omega)
  rw [h1, if_pos h]
  have : ((n : Int) % 2 ^ 64) = (n : Int) := Int.emod_eq_of_lt (by omega) (by omega)
  rw [this]
  simp

theorem drain_length_at_2_31 : size_t_of_int (int_of_size_t (2 ^ 31)) = 2 ^ 64 - 2 ^ 31 := by
  decide

/-- For a consumed count below 2^31 `on_read` removes exactly that many bytes
from the front of the input buffer. -/
theorem on_read_input_of_lt (env : Env) (feed : Feed) (s s1 : Bridge) (n : Nat)
    (err : htpparse_error) (h : htparser_run feed s = some (s1, n, err)) (hn : n < 2 ^ 31) :
    n = consumed feed.calls feed.nread
    ∧ (on_read env feed s).map (fun r => r.1.input) = some (s.input.drop n) := by
  obtain ⟨hi, hc⟩ := run_hooks_input feed.calls feed.nread feed.error s (s1, n, err) h
  simp only at hi hc
  rw [on_read_eq env feed s s1 n err h]
  exact ⟨hc, by simp [evbuffer_drain, drain_length_of_lt n hn, hi]⟩

theorem on_read_drains_all (env : Env) (s : Bridge) (p : Ptr) (d : Downstream)
    (body next : Bytes) (hp : get_last_downstream s = some p) (hd : s.heap p = some d)
    (hin : s.input = body ++ next) (hb : body.length = 2 ^ 31) (hn : next.length ≤ 2 ^ 31) :
    (on_read env
        { calls := [(HtpCall.body body, 2 ^ 31), (HtpCall.on_msg_complete, 2 ^ 31)],
          nread := 2 ^ 31 } s).map (fun r => r.1.input) = some []
    ∧ s.input.drop (2 ^ 31) = next := by
  constructor
  · have hp2 : get_last_downstream (s.store p (d.push_upload_data_chunk body)) = some p := hp
    have hrun : htparser_run
        { calls := [(HtpCall.body body, 2 ^ 31), (HtpCall.on_msg_complete, 2 ^ 31)],
          nread := 2 ^ 31 } s
        = some ((s.store p (d.push_upload_data_chunk body)).store p
            { (d.push_upload_data_chunk body).end_upload_data with
                request_state := IOState.MSG_COMPLETE },
            2 ^ 31, htpparse_error.htparse_error_user) := by
      simp only [htparser_run, run_hooks, htp_hooks, htp_bodycb, htp_msg_completecb,
        with_last_downstream, hp, hd, hp2]
      simp [Bridge.store]
    rw [on_read_eq env _ s _ _ _ hrun, drain_length_at_2_31]
    simp only [Option.map_some', evbuffer_drain, Bridge.store, hin, Option.some.injEq]
    apply List.drop_eq_nil_of_le
    rw [List.length_append, hb]
    omega
  · rw [hin, ← hb]
    exact List.drop_left' rfl

/-- C13 fails when the tokenizer consumes 2^31 bytes: the count passes
through `int nread`, `evbuffer_drain` is called with 2^64 - 2^31 and empties
the buffer, although one unconsumed byte followed the 2^31 consumed ones. -/
theorem C13_drain_wraps_at_2_31 :
    (on_read sample_env
        { calls := [(HtpCall.body (List.replicate (2 ^ 31) 'x'), 2 ^ 31),
                    (HtpCall.on_msg_complete, 2 ^ 31)],
          nread := 2 ^ 31 }
        { sample_bridge uploading with input := List.replicate (2 ^ 31) 'x' ++ ['G'] }).map
        (fun r => r.1.input) = some []
    ∧ ({ sample_bridge uploading with
          input := List.replicate (2 ^ 31) 'x' ++ ['G'] } : Bridge).input.drop (2 ^ 31) = ['G'] :=
  on_read_drains_all sample_env _ 0 uploading (List.replicate (2 ^ 31) 'x') ['G'] rfl rfl rfl
    (List.length_replicate _ _) (by simp)

theorem with_last_downstream_eq (s : Bridge) (f : Downstream → Downstream) (rv : Int)
    (p : Ptr) (d : Downstream) (hp : get_last_downstream s = some p)
    (hd : s.heap p = some d) :
    with_last_downstream s f rv = some (s.store p (f d), rv) := by
  simp only [with_last_downstream, hp, hd]

/-- The headers-begin callback sets the connection-close flag of the exchange
at the back of the queue when `major * 100 + minor < 101` and leaves it
unchanged otherwise; for every version with `major ≥ 1` or `minor ≤ 100` that
test is exactly: the version is below HTTP/1.1. -/
theorem htp_hdrs_begincb_eq (s : Bridge) (p : Ptr) (d : Downstream) (major minor : Nat)
    (hp : get_last_downstream s = some p) (hd : s.heap p = some d) :
    htp_hdrs_begincb s major minor
      = some (s.store p
          { d with request_connection_close :=
              if major * 100 + minor < 101 then true else d.request_connection_close }, 0)
    ∧ (major ≥ 1 ∨ minor ≤ 100 →
        (major * 100 + minor < 101 ↔ below_HTTP_1_1 major minor)) := by
  constructor
  · unfold htp_hdrs_begincb
    rw [with_last_downstream_eq s _ 0 p d hp hd]
    by_cases hv : major * 100 + minor < 101
    · simp [hv]
    · simp [hv]
  · intro h
    unfold below_HTTP_1_1
    omega

/-- C15 fails at version 0.101: the version is below HTTP/1.1, but the code
orders versions by `major * 100 + minor`, the test `0 * 100 + 101 < 101` is
false, and the callback leaves the connection-close flag unset. At 0.9 and
1.0 the flag is set, at 1.1 it is left alone. -/
theorem C15_version_0_101_not_flagged :
    below_HTTP_1_1 0 101
    ∧ ¬ (0 * 100 + 101 < 101)
    ∧ (htp_hdrs_begincb (sample_bridge {}) 0 101).map
        (fun r => (r.1.heap 0).map (fun d => d.request_connection_close))
      = some (some false)
    ∧ (htp_hdrs_begincb (sample_bridge {}) 0 9).map
        (fun r => (r.1.heap 0).map (fun d => d.request_connection_close))
      = some (some true)
    ∧ (htp_hdrs_begincb (sample_bridge {}) 1 0).map
        (fun r => (r.1.heap 0).map (fun d => d.request_connection_close))
      = some (some true)
    ∧ (htp_hdrs_begincb (sample_bridge {}) 1 1).map
        (fun r => (r.1.heap 0).map (fun d => d.request_connection_close))
      = some (some false) := by
  refine ⟨Or.inl (by decide), by decide, by decide, by decide, by decide, by decide⟩

theorem run_hooks_error (calls : List (HtpCall × Nat)) :
    ∀ (nread : Nat) (err : htpparse_error) (s : Bridge),
      run_hooks calls nread err s
        = (run_hooks calls nread htpparse_error.htparse_error_none s).map
            (fun r => (r.1, r.2.1,
              if r.2.2 = htpparse_error.htparse_error_user
              then htpparse_error.htparse_error_user else err)) := by
  induction calls with
  | nil =>
    intro nread err s
    simp [run_hooks]
  | cons cn rest ih =>
    intro nread err s
    obtain ⟨c, n⟩ := cn
    unfold run_hooks
    cases hh : htp_hooks s c with
    | none => simp
    | some r1 =>
      obtain ⟨s1, rv⟩ := r1
      by_cases hrv : rv ≠ 0
      · simp [hrv]
      · simp only [hrv, if_false]
        exact ih nread err s1

/-- The backend handlers end in the same state whether the parse pass of
`resume_read` reports malformed input or no error. -/
theorem resume_read_drops_parse_failure (env : Env) (calls : List (HtpCall × Nat))
    (nread : Nat) (s : Bridge) :
    resume_read env
        { calls := calls, nread := nread, error := htpparse_error.htparse_error_generic } s
      = resume_read env
        { calls := calls, nread := nread, error := htpparse_error.htparse_error_none } s := by
  unfold resume_read on_read htparser_run
  simp only
  rw [run_hooks_error calls nread htpparse_error.htparse_error_generic]
  cases run_hooks calls nread htpparse_error.htparse_error_none
      { s with read_enabled := true } with
  | none => rfl
  | some r =>
    obtain ⟨s1, n, e⟩ := r
    cases e <;> simp

theorem deliver_method_eq (frags : List Bytes) :
    ∀ (s : Bridge) (p : Ptr) (d : Downstream), get_last_downstream s = some p →
      s.heap p = some d →
      ∃ s1, deliver_method frags s = some s1
        ∧ s1.heap p = some { d with request_method := d.request_method ++ frags.flatten } := by
  induction frags with
  | nil =>
    intro s p d _ hd
    exact ⟨s, rfl, by simp [hd]⟩
  | cons f rest ih =>
    intro s p d hp hd
    simp only [deliver_method, htp_methodcb, with_last_downstream_eq s _ 0 p d hp hd]
    obtain ⟨s1, h1, h2⟩ := ih (s.store p (d.set_request_method f)) p (d.set_request_method f)
      hp (by simp [Bridge.store])
    exact ⟨s1, h1, by simp [h2, Downstream.set_request_method]⟩

theorem deliver_uri_eq (frags : List Bytes) :
    ∀ (s : Bridge) (p : Ptr) (d : Downstream), get_last_downstream s = some p →
      s.heap p = some d →
      ∃ s1, deliver_uri frags s = some s1
        ∧ s1.heap p = some { d with request_path := d.request_path ++ frags.flatten } := by
  induction frags with
  | nil =>
    intro s p d _ hd
    exact ⟨s, rfl, by simp [hd]⟩
  | cons f rest ih =>
    intro s p d hp hd
    simp only [deliver_uri, htp_uricb, with_last_downstream_eq s _ 0 p d hp hd]
    obtain ⟨s1, h1, h2⟩ := ih (s.store p (d.set_request_path f)) p (d.set_request_path f)
      hp (by simp [Bridge.store])
    exact ⟨s1, h1, by simp [h2, Downstream.set_request_path]⟩

/-- C20: for an exchange at the back of the queue whose method and path are
still empty, the method callbacks of the fragments of a method token leave
the concatenation of the fragments as the request method, and the URI
callbacks of the fragments of a URI token leave their concatenation as the
request path. -/
theorem C20_fragments_concatenate (s : Bridge) (p : Ptr) (d : Downstream)
    (frags : List Bytes) (hp : get_last_downstream s = some p) (hd : s.heap p = some d)
    (hm : d.request_method = []) (hu : d.request_path = []) :
    ((deliver_method frags s).bind (fun s1 => s1.heap p)).map (fun x => x.request_method)
      = some frags.flatten
    ∧ ((deliver_uri frags s).bind (fun s1 => s1.heap p)).map (fun x => x.request_path)
      = some frags.flatten := by
  obtain ⟨s1, h1, h2⟩ := deliver_method_eq frags s p d hp hd
  obtain ⟨s2, h3, h4⟩ := deliver_uri_eq frags s p d hp hd
  rw [h1, h3]
  simp [h2, h4, hm, hu]

/-- C20 at `GE`, `T` and at `/in`, `dex`, `.html`. -/
theorem C20_fragments_concatenate_witness :
    get_last_downstream (sample_bridge {}) = some 0
    ∧ (sample_bridge {}).heap 0 = some {}
    ∧ ((deliver_method ["GE".toList, "T".toList] (sample_bridge {})).bind
          (fun s1 => s1.heap 0)).map (fun x => x.request_method) = some "GET".toList
    ∧ ((deliver_uri ["/in".toList, "dex".toList, ".html".toList] (sample_bridge {})).bind
          (fun s1 => s1.heap 0)).map (fun x => x.request_path) = some "/index.html".toList :=
  ⟨rfl, rfl,
   (C20_fragments_concatenate (sample_bridge {}) 0 {} ["GE".toList, "T".toList]
      rfl rfl rfl rfl).1,
   (C20_fragments_concatenate (sample_bridge {}) 0 {}
      ["/in".toList, "dex".toList, ".html".toList] rfl rfl rfl rfl).2⟩

theorem with_last_downstream_effect (s : Bridge) (f : Downstream → Downstream) (rv : Int)
    (r : Bridge × Int) (h : with_last_downstream s f rv = some r) :
    ∃ p d, get_last_downstream s = some p ∧ s.heap p = some d
      ∧ r.1.heap = (fun q => if q = p then some (f d) else s.heap q)
      ∧ r.1.downstream_queue_ = s.downstream_queue_ ∧ r.1.next_ptr = s.next_ptr := by
  unfold with_last_downstream at h
  cases hp : get_last_downstream s with
  | none => simp [hp] at h
  | some p =>
    cases hd : s.heap p with
    | none => simp [hp, hd] at h
    | some d =>
      simp only [hp, hd, Option.some.injEq] at h
      subst h
      exact ⟨p, d, rfl, hd, rfl, rfl, rfl⟩

/-- What a parser callback does to the heap, the queue and the allocator. -/
theorem htp_hooks_effect (s : Bridge) (c : HtpCall) (r : Bridge × Int)
    (h : htp_hooks s c = some r) :
    (c = HtpCall.on_msg_begin
      ∧ r.1.heap = (fun q => if q = s.next_ptr then some {} else s.heap q)
      ∧ r.1.downstream_queue_ = s.downstream_queue_ ++ [s.next_ptr]
      ∧ r.1.next_ptr = s.next_ptr + 1)
    ∨ (c ≠ HtpCall.on_msg_begin
      ∧ ∃ p d d1, get_last_downstream s = some p ∧ s.heap p = some d
        ∧ r.1.heap = (fun q => if q = p then some d1 else s.heap q)
        ∧ r.1.downstream_queue_ = s.downstream_queue_ ∧ r.1.next_ptr = s.next_ptr
        ∧ d1.response_state = d.response_state
        ∧ d1.request_state = request_state_after c d.request_state) := by
  cases c with
  | on_msg_begin =>
    left
    simp only [htp_hooks, htp_msg_begin, Option.some.injEq] at h
    subst h
    exact ⟨rfl, rfl, rfl, rfl⟩
  | method data =>
    right
    obtain ⟨p, d, h1, h2, h3, h4, h5⟩ := with_last_downstream_effect s _ _ r h
    exact ⟨by simp, p, d, _, h1, h2, h3, h4, h5, rfl, rfl⟩
  | uri data =>
    right
    obtain ⟨p, d, h1, h2, h3, h4, h5⟩ := with_last_downstream_effect s _ _ r h
    exact ⟨by simp, p, d, _, h1, h2, h3, h4, h5, rfl, rfl⟩
  | on_hdrs_begin major minor =>
    right
    obtain ⟨p, d, h1, h2, h3, h4, h5⟩ := with_last_downstream_effect s _ _ r h
    refine ⟨by simp, p, d, _, h1, h2, h3, h4, h5, ?_, ?_⟩
    · by_cases hv : major * 100 + minor < 101 <;> simp [hv]
    · by_cases hv : major * 100 + minor < 101 <;> simp [hv, request_state_after]
  | hdr_key data =>
    right
    obtain ⟨p, d, h1, h2, h3, h4, h5⟩ := with_last_downstream_effect s _ _ r h
    exact ⟨by simp, p, d, _, h1, h2, h3, h4, h5, rfl, rfl⟩
  | hdr_val data =>
    right
    obtain ⟨p, d, h1, h2, h3, h4, h5⟩ := with_last_downstream_effect s _ _ r h
    exact ⟨by simp, p, d, _, h1, h2, h3, h4, h5, rfl, rfl⟩
  | on_hdrs_complete =>
    right
    obtain ⟨p, d, h1, h2, h3, h4, h5⟩ := with_last_downstream_effect s _ _ r h
    exact ⟨by simp, p, d, _, h1, h2, h3, h4, h5, rfl, rfl⟩
  | body data =>
    right
    obtain ⟨p, d, h1, h2, h3, h4, h5⟩ := with_last_downstream_effect s _ _ r h
    exact ⟨by simp, p, d, _, h1, h2, h3, h4, h5, rfl, rfl⟩
  | on_msg_complete =>
    right
    obtain ⟨p, d, h1, h2, h3, h4, h5⟩ := with_last_downstream_effect s _ _ r h
    exact ⟨by simp, p, d, _, h1, h2, h3, h4, h5, rfl, rfl⟩

theorem heap_advances_refl (s : Bridge) : heap_advances s s :=
  ⟨fun _ d h => ⟨d, h, le_refl _, le_refl _⟩, fun _ _ h => h, le_refl _⟩

theorem heap_advances_trans (s s1 s2 : Bridge) (h1 : heap_advances s s1)
    (h2 : heap_advances s1 s2) : heap_advances s s2 := by
  obtain ⟨a1, a2, a3⟩ := h1
  obtain ⟨b1, b2, b3⟩ := h2
  refine ⟨?_, ?_, le_trans a3 b3⟩
  · intro p d hd
    obtain ⟨d1, hd1, r1, r2⟩ := a1 p d hd
    obtain ⟨d2, hd2, r3, r4⟩ := b1 p d1 hd1
    exact ⟨d2, hd2, le_trans r1 r3, le_trans r2 r4⟩
  · intro p hp hn
    exact b2 p (lt_of_lt_of_le hp a3) (a2 p hp hn)

theorem heap_advances_no_regress (s s1 : Bridge) (h : heap_advances s s1) :
    no_regress s s1 := by
  intro p d d1 hd hd1
  obtain ⟨d2, hd2, r1, r2⟩ := h.1 p d hd
  have : d1 = d2 := Option.some.inj (hd1.symm.trans hd2)
  subst this
  exact ⟨r1, r2⟩

theorem get_last_downstream_push (q : List Ptr) (p : Ptr) : (q ++ [p]).getLast? = some p := by
  simp

theorem phase_next_idle (ph ph1 : Phase) (c : HtpCall) (h : ph.next c = some ph1)
    (hi : ph1 = Phase.idle) : c = HtpCall.on_msg_complete := by
  cases ph <;> cases c <;> simp [Phase.next] at h <;> simp_all

theorem phase_next_msg_begin (ph ph1 : Phase) (h : ph.next HtpCall.on_msg_begin = some ph1) :
    ph = Phase.idle ∧ ph1 = Phase.head := by
  cases ph <;> simp [Phase.next] at h
  simp_all

theorem phase_next_to_head (ph ph1 : Phase) (c : HtpCall) (h : ph.next c = some ph1)
    (hc : c ≠ HtpCall.on_msg_begin) (hh : ph1 = Phase.head) :
    ph = Phase.head ∧ ∀ old, request_state_after c old = old := by
  cases ph <;> cases c <;> simp [Phase.next] at h <;> simp_all [request_state_after]

theorem phase_next_rank (ph ph1 : Phase) (c : HtpCall) (h : ph.next c = some ph1)
    (old : IOState) (hold : ph = Phase.head → old = IOState.INITIAL) :
    old.rank ≤ (request_state_after c old).rank := by
  cases ph <;> cases c <;> simp [Phase.next] at h <;>
    cases old <;> simp_all [request_state_after, IOState.rank]

/-- One parser callback that follows the grammar keeps `HookInv` (up to the
stop at message-complete) and moves no exchange backwards. -/
theorem hook_step (loop : Bool) (s : Bridge) (ph ph1 : Phase) (c : HtpCall)
    (r : Bridge × Int) (hinv : HookInv loop s ph) (hph : ph.next c = some ph1)
    (hh : htp_hooks s c = some r) :
    heap_advances s r.1
    ∧ (∀ p, r.1.next_ptr ≤ p → r.1.heap p = none)
    ∧ (ph1 = Phase.head → ∀ p d, get_last_downstream r.1 = some p → r.1.heap p = some d →
        d.request_state = IOState.INITIAL)
    ∧ (loop = true →
        (∀ p, (r.1.heap p).isSome = true ↔ p ∈ r.1.downstream_queue_)
        ∧ r.1.downstream_queue_.length ≤ 1) := by
  obtain ⟨i2, i1, j⟩ := hinv
  rcases htp_hooks_effect s c r hh with ⟨hc, hheap, hq, hn⟩ | ⟨hc, p, d, d1, hp, hd, hheap, hq, hn, hresp, hreq⟩
  · subst hc
    obtain ⟨hidle, _⟩ := phase_next_msg_begin ph ph1 hph
    have hfresh : s.heap s.next_ptr = none := i2 _ (le_refl _)
    refine ⟨⟨?_, ?_, by (try simp only [Ptr] at *); omega⟩, ?_, ?_, ?_⟩
    · intro q dq hdq
      have hne : q ≠ s.next_ptr := by
        intro e
        rw [e, hfresh] at hdq
        exact Option.noConfusion hdq
      exact ⟨dq, by simp [hheap, hne, hdq], le_refl _, le_refl _⟩
    · intro q hq1 hq2
      have hne : q ≠ s.next_ptr := by (try simp only [Ptr] at *); omega
      simp [hheap, hne, hq2]
    · intro q hq1
      have hne : q ≠ s.next_ptr := by (try simp only [Ptr] at *); omega
      rw [hheap]
      simp only [hne, if_false]
      exact i2 q (by (try simp only [Ptr] at *); omega)
    · intro _ q dq hlast hdq
      have hq2 : q = s.next_ptr := by
        unfold get_last_downstream at hlast
        rw [hq, get_last_downstream_push] at hlast
        exact (Option.some.inj hlast).symm
      subst hq2
      rw [hheap] at hdq
      simp only [if_true, Option.some.injEq] at hdq
      subst hdq
      rfl
    · intro hl
      obtain ⟨j1, _, j3⟩ := j hl
      have hempty := j3 hidle
      refine ⟨?_, by simp [hq, hempty]⟩
      intro q
      rw [hheap, hq, hempty]
      by_cases hqe : q = s.next_ptr
      · simp [hqe]
      · have := (j1 q)
        rw [hempty] at this
        simp only [hqe, if_false, List.nil_append, List.mem_singleton, iff_false]
        simpa using this
  · have hplt : p < s.next_ptr := by
      by_contra hge
      rw [i2 p (by (try simp only [Ptr] at *); omega)] at hd
      exact Option.noConfusion hd
    refine ⟨⟨?_, ?_, by (try simp only [Ptr] at *); omega⟩, ?_, ?_, ?_⟩
    · intro q dq hdq
      by_cases hqe : q = p
      · subst hqe
        have : dq = d := Option.some.inj (hdq.symm.trans hd)
        subst this
        refine ⟨d1, by simp [hheap], ?_, by rw [hresp]⟩
        rw [hreq]
        apply phase_next_rank ph ph1 c hph
        intro hhead
        exact i1 hhead q dq hp hd
      · exact ⟨dq, by simp [hheap, hqe, hdq], le_refl _, le_refl _⟩
    · intro q _ hq2
      have hqe : q ≠ p := by
        intro e
        rw [e, hd] at hq2
        exact Option.noConfusion hq2
      simp [hheap, hqe, hq2]
    · intro q hq1
      have hqe : q ≠ p := by (try simp only [Ptr] at *); omega
      rw [hheap]
      simp only [hqe, if_false]
      exact i2 q (by (try simp only [Ptr] at *); omega)
    · intro hhead q dq hlast hdq
      obtain ⟨hph0, hsame⟩ := phase_next_to_head ph ph1 c hph hc hhead
      have hq2 : q = p := by
        unfold get_last_downstream at hlast hp
        rw [hq, hp] at hlast
        exact (Option.some.inj hlast).symm
      subst hq2
      rw [hheap] at hdq
      simp only [if_true, Option.some.injEq] at hdq
      subst hdq
      rw [hreq, hsame]
      exact i1 hph0 q d hp hd
    · intro hl
      obtain ⟨j1, j2, _⟩ := j hl
      refine ⟨?_, by rw [hq]; exact j2⟩
      intro q
      rw [hheap, hq]
      by_cases hqe : q = p
      · subst hqe
        have := j1 q
        simp only [hd, Option.isSome_some, true_iff] at this
        simp [this]
      · simp only [hqe, if_false]
        exact j1 q

/-- The hooks of one tokenizer run that follows the grammar. -/
theorem run_hooks_inv (loop : Bool) (calls : List (HtpCall × Nat)) :
    ∀ (ph ph1 : Phase) (nread : Nat) (err : htpparse_error) (s : Bridge)
      (r : Bridge × Nat × htpparse_error),
      HookInv loop s ph → phase_after ph calls = some ph1 →
      run_hooks calls nread err s = some r →
        heap_advances s r.1
        ∧ (∀ p, r.1.next_ptr ≤ p → r.1.heap p = none)
        ∧ (ph1 = Phase.head → ∀ p d, get_last_downstream r.1 = some p →
            r.1.heap p = some d → d.request_state = IOState.INITIAL)
        ∧ (loop = true →
            (∀ p, (r.1.heap p).isSome = true ↔ p ∈ r.1.downstream_queue_)
            ∧ r.1.downstream_queue_.length ≤ 1
            ∧ (ph1 = Phase.idle → stopped_by_hook calls = false →
                r.1.downstream_queue_ = [])) := by
  induction calls with
  | nil =>
    intro ph ph1 nread err s r hinv hph h
    simp only [run_hooks, Option.some.injEq] at h
    subst h
    simp only [phase_after, Option.some.injEq] at hph
    subst hph
    obtain ⟨i2, i1, j⟩ := hinv
    refine ⟨heap_advances_refl s, i2, i1, ?_⟩
    intro hl
    obtain ⟨j1, j2, j3⟩ := j hl
    exact ⟨j1, j2, fun hi _ => j3 hi⟩
  | cons cn rest ih =>
    intro ph ph1 nread err s r hinv hph h
    obtain ⟨c, n⟩ := cn
    unfold run_hooks at h
    unfold phase_after at hph
    cases hn : ph.next c with
    | none => simp [hn] at hph
    | some ph2 =>
      simp only [hn] at hph
      cases hh : htp_hooks s c with
      | none => simp [hh] at h
      | some r1 =>
        obtain ⟨s1, rv⟩ := r1
        obtain ⟨a, i2, i1, j⟩ := hook_step loop s ph ph2 c (s1, rv) hinv hn hh
        obtain ⟨_, _, f3⟩ := htp_hooks_spec s c (s1, rv) hh
        simp only at a i2 i1 j f3
        simp only [hh] at h
        by_cases hrv : rv ≠ 0
        · have hc : c = HtpCall.on_msg_complete := f3.mp hrv
          simp only [hrv, if_true, Option.some.injEq, ne_eq, not_false_eq_true] at h
          subst h
          simp only [hc, if_true, Option.some.injEq] at hph
          subst hph
          refine ⟨a, i2, i1, ?_⟩
          intro hl
          obtain ⟨j1, j2⟩ := j hl
          refine ⟨j1, j2, ?_⟩
          intro _ hs
          simp [stopped_by_hook, hc] at hs
        · have hc : c ≠ HtpCall.on_msg_complete := fun e => hrv (f3.mpr e)
          simp only [hrv, if_false] at h
          simp only [hc, if_false] at hph
          have hinv1 : HookInv loop s1 ph2 := by
            refine ⟨i2, i1, ?_⟩
            intro hl
            obtain ⟨j1, j2⟩ := j hl
            exact ⟨j1, j2, fun hi => absurd (phase_next_idle ph ph2 c hn hi) hc⟩
          obtain ⟨a', i2', i1', j'⟩ := ih ph2 ph1 nread err s1 r hinv1 hph h
          refine ⟨heap_advances_trans s s1 r.1 a a', i2', i1', ?_⟩
          intro hl
          obtain ⟨j1, j2, j3⟩ := j' hl
          refine ⟨j1, j2, ?_⟩
          intro hi hs
          apply j3 hi
          simpa [stopped_by_hook, hc] using hs

/-- One parse pass of `on_read` that follows the grammar. -/
theorem on_read_inv (env : Env) (loop : Bool) (feed : Feed) (s : Bridge) (ph ph1 : Phase)
    (r : Bridge × Int) (hinv : HookInv loop s ph) (hph : phase_after ph feed.calls = some ph1)
    (h : on_read env feed s = some r) :
    heap_advances s r.1 ∧ Inv loop (r.1, ph1) := by
  unfold on_read htparser_run at h
  cases hr : run_hooks feed.calls feed.nread feed.error s with
  | none => simp [hr] at h
  | some r1 =>
    obtain ⟨s1, n, htperr⟩ := r1
    obtain ⟨a, i2, i1, j⟩ := run_hooks_inv loop feed.calls ph ph1 _ _ s (s1, n, htperr) hinv hph hr
    obtain ⟨_, _, e⟩ := run_hooks_spec feed.calls _ _ s (s1, n, htperr) hr
    simp only at a i2 i1 j e
    simp only [hr] at h
    have key : ∀ b : Bool, (b = true → htperr ≠ htpparse_error.htparse_error_user) →
        heap_advances s { evbuffer_drain s1 (size_t_of_int (int_of_size_t n)) with
            read_enabled := b }
        ∧ Inv loop ({ evbuffer_drain s1 (size_t_of_int (int_of_size_t n)) with
            read_enabled := b }, ph1) := by
      intro b hb
      refine ⟨a, i2, i1, ?_⟩
      intro hl
      obtain ⟨j1, j2, j3⟩ := j hl
      refine ⟨j1, j2, ?_⟩
      intro hi hre
      apply j3 hi
      have hne := hb hre
      rw [e] at hne
      by_contra hst
      simp only [Bool.not_eq_false] at hst
      simp [hst] at hne
    cases htperr with
    | htparse_error_user =>
      simp only [if_true, Option.some.injEq] at h
      subst h
      exact key false (by simp)
    | htparse_error_none =>
      simp only [reduceCtorEq, if_false, ne_eq, not_true_eq_false, Option.some.injEq] at h
      subst h
      exact key s1.read_enabled (by simp)
    | htparse_error_generic =>
      simp only [reduceCtorEq, if_false, if_true, ne_eq, not_false_eq_true,
        Option.some.injEq] at h
      subst h
      exact key s1.read_enabled (by simp)

theorem get_last_of_tail (x : Ptr) (rest : List Ptr) (q : Ptr)
    (h : rest.getLast? = some q) : (x :: rest).getLast? = some q := by
  cases rest with
  | nil => simp at h
  | cons y ys => simpa [List.getLast?_cons_cons] using h

theorem replied_inv (loop : Bool) (s s1 : Bridge) (ph : Phase) (p : Ptr) (d : Downstream)
    (hd : s.heap p = some d) (hr : replied s p d s1)
    (i2 : ∀ q, s.next_ptr ≤ q → s.heap q = none)
    (i1 : ph = Phase.head → ∀ q dq, get_last_downstream s = some q → s.heap q = some dq →
      dq.request_state = IOState.INITIAL)
    (j : loop = true →
      (∀ q, (s.heap q).isSome = true ↔ q ∈ s.downstream_queue_)
      ∧ s.downstream_queue_.length ≤ 1) :
    heap_advances s s1
    ∧ (∃ d1, s1.heap p = some d1)
    ∧ (∀ q, s1.next_ptr ≤ q → s1.heap q = none)
    ∧ (ph = Phase.head → ∀ q dq, get_last_downstream s1 = some q → s1.heap q = some dq →
        dq.request_state = IOState.INITIAL)
    ∧ (loop = true →
        (∀ q, (s1.heap q).isSome = true ↔ q ∈ s1.downstream_queue_)
        ∧ s1.downstream_queue_.length ≤ 1) := by
  obtain ⟨hq, hn, hh⟩ := hr
  have hlast : get_last_downstream s1 = get_last_downstream s := by
    unfold get_last_downstream
    rw [hq]
  rcases hh with hh | hh
  · refine ⟨⟨?_, ?_, by rw [hn]⟩, ⟨d, by rw [hh]; exact hd⟩, ?_, ?_, ?_⟩
    · intro q dq hdq
      exact ⟨dq, by rw [hh]; exact hdq, le_refl _, le_refl _⟩
    · intro q _ hq2
      rw [hh]; exact hq2
    · intro q hq1
      rw [hh]; exact i2 q (by rw [← hn]; exact hq1)
    · intro hhead q dq hl hdq
      rw [hlast] at hl
      rw [hh] at hdq
      exact i1 hhead q dq hl hdq
    · intro hl
      rw [hh, hq]
      exact j hl
  · have hplt : p < s.next_ptr := by
      by_contra hge
      rw [i2 p (Nat.le_of_not_lt hge)] at hd
      exact Option.noConfusion hd
    refine ⟨⟨?_, ?_, by rw [hn]⟩,
      ⟨{ d with response_state := IOState.MSG_COMPLETE }, by rw [hh]; simp⟩, ?_, ?_, ?_⟩
    · intro q dq hdq
      by_cases hqe : q = p
      · subst hqe
        have : dq = d := Option.some.inj (hdq.symm.trans hd)
        subst this
        refine ⟨{ dq with response_state := IOState.MSG_COMPLETE }, by rw [hh]; simp,
          le_refl _, ?_⟩
        cases dq.response_state <;> simp [IOState.rank]
      · exact ⟨dq, by rw [hh]; simp [hqe, hdq], le_refl _, le_refl _⟩
    · intro q _ hq2
      have hqe : q ≠ p := by
        intro e
        rw [e, hd] at hq2
        exact Option.noConfusion hq2
      rw [hh]; simp [hqe, hq2]
    · intro q hq1
      have hqe : q ≠ p := by
        intro e
        rw [e, hn] at hq1
        exact absurd hplt (Nat.not_lt.mpr hq1)
      rw [hh]
      simp only [hqe, if_false]
      exact i2 q (by rw [← hn]; exact hq1)
    · intro hhead q dq hl hdq
      rw [hlast] at hl
      rw [hh] at hdq
      by_cases hqe : q = p
      · subst hqe
        simp only [if_true, Option.some.injEq] at hdq
        subst hdq
        exact i1 hhead q d hl hd
      · simp only [hqe, if_false] at hdq
        exact i1 hhead q dq hl hdq
    · intro hl
      obtain ⟨j1, j2⟩ := j hl
      refine ⟨?_, by rw [hq]; exact j2⟩
      intro q
      rw [hh, hq]
      by_cases hqe : q = p
      · subst hqe
        have := j1 q
        simp only [hd, Option.isSome_some, true_iff] at this
        simp [this]
      · simp only [hqe, if_false]
        exact j1 q

/-- The steps `pop_downstream(); delete downstream; resume_read();`. -/
theorem retire_inv (env : Env) (loop : Bool) (feed : Feed) (s s3 : Bridge) (p : Ptr)
    (ph ph1 : Phase)
    (i2 : ∀ q, s.next_ptr ≤ q → s.heap q = none)
    (i1 : ph = Phase.head → ∀ q dq, get_last_downstream s = some q → s.heap q = some dq →
      dq.request_state = IOState.INITIAL)
    (j : loop = true →
      (∀ q, (s.heap q).isSome = true ↔ q ∈ s.downstream_queue_)
      ∧ s.downstream_queue_.length ≤ 1)
    (hph : phase_after ph feed.calls = some ph1)
    (h : retire env feed s p = some s3) :
    Inv loop (s3, ph1) ∧ no_regress s s3 := by
  unfold retire pop_downstream at h
  cases hq : s.downstream_queue_ with
  | nil => simp [hq] at h
  | cons x rest =>
    simp only [hq] at h
    unfold Bridge.delete at h
    cases hd : s.heap p with
    | none => simp [hd] at h
    | some d =>
      simp only [hd] at h
      unfold resume_read at h
      cases hr : on_read env feed
          { s with downstream_queue_ := rest,
                   heap := fun q => if q = p then none else s.heap q,
                   destroyed := (p, d) :: s.destroyed,
                   read_enabled := true } with
      | none => simp [hr] at h
      | some r =>
        simp only [hr, Option.some.injEq] at h
        subst h
        have hplt : p < s.next_ptr := by
          by_contra hge
          rw [i2 p (Nat.le_of_not_lt hge)] at hd
          exact Option.noConfusion hd
        have hinv : HookInv loop
            { s with downstream_queue_ := rest,
                     heap := fun q => if q = p then none else s.heap q,
                     destroyed := (p, d) :: s.destroyed,
                     read_enabled := true } ph := by
          refine ⟨?_, ?_, ?_⟩
          · intro q hq1
            show (if q = p then none else s.heap q) = none
            by_cases hqe : q = p
            · simp [hqe]
            · simp only [hqe, if_false]
              exact i2 q hq1
          · intro hhead q dq hl hdq
            have hl2 : get_last_downstream s = some q := by
              unfold get_last_downstream
              rw [hq]
              exact get_last_of_tail x rest q hl
            have hdq2 : (if q = p then none else s.heap q) = some dq := hdq
            by_cases hqe : q = p
            · simp [hqe] at hdq2
            · simp only [hqe, if_false] at hdq2
              exact i1 hhead q dq hl2 hdq2
          · intro hl
            obtain ⟨j1, j2⟩ := j hl
            rw [hq] at j1 j2
            have hrest : rest = [] := by
              cases rest with
              | nil => rfl
              | cons y ys => simp at j2
            subst hrest
            have hpx : p = x := by
              have := (j1 p).mp (by simp [hd])
              simpa using this
            refine ⟨?_, by simp, fun _ => rfl⟩
            intro q
            show ((if q = p then none else s.heap q).isSome = true) ↔ q ∈ ([] : List Ptr)
            by_cases hqe : q = p
            · simp [hqe]
            · simp only [hqe, if_false, List.not_mem_nil, iff_false]
              intro hsome
              have := (j1 q).mp hsome
              simp only [List.mem_singleton] at this
              exact hqe (this.trans hpx.symm)
        obtain ⟨a, hI⟩ := on_read_inv env loop feed _ ph ph1 r hinv hph hr
        refine ⟨hI, ?_⟩
        intro q dq d3 hdq hd3
        by_cases hqe : q = p
        · exfalso
          have : r.1.heap q = none := by
            apply a.2.1 q
            · rw [hqe]; exact hplt
            · show (if q = p then none else s.heap q) = none
              simp [hqe]
          rw [this] at hd3
          exact Option.noConfusion hd3
        · obtain ⟨d4, hd4, r1, r2⟩ := a.1 q dq (by
            show (if q = p then none else s.heap q) = some dq
            simp [hqe, hdq])
          have : d3 = d4 := Option.some.inj (hd3.symm.trans hd4)
          subst this
          exact ⟨r1, r2⟩

theorem eventcb_cases (env : Env) (feed : Feed) (s s3 : Bridge) (events : Nat) (p : Ptr)
    (d : Downstream) (hd : s.heap p = some d)
    (h : https_downstream_eventcb env feed s events p = some s3) :
    (eventcb_resumes events = false ∧ s3 = s)
    ∨ (eventcb_resumes events = true
        ∧ ∃ s1, replied s p d s1 ∧ retire env feed s1 p = some s3) := by
  by_cases hEOF : events &&& BEV_EVENT_EOF = 0
  · by_cases hET : events &&& (BEV_EVENT_ERROR ||| BEV_EVENT_TIMEOUT) = 0
    · left
      refine ⟨by simp [eventcb_resumes, hEOF, hET], ?_⟩
      unfold https_downstream_eventcb at h
      simp only [hd, hEOF, hET, ne_eq, not_true_eq_false, if_false, Option.some.injEq] at h
      exact h.symm
    · right
      refine ⟨by simp [eventcb_resumes, hET], ?_⟩
      rw [eventcb_error_eq env feed s events p d hd hEOF hET] at h
      by_cases hi : d.response_state = IOState.INITIAL
      · rw [if_pos hi] at h
        exact ⟨(evbuffer_add s (error_reply_bytes env
              (if events &&& BEV_EVENT_TIMEOUT ≠ 0 then 504 else 502))).store p
            { d with response_state := IOState.MSG_COMPLETE },
          ⟨rfl, rfl, Or.inr rfl⟩, h⟩
      · rw [if_neg hi] at h
        exact ⟨s, ⟨rfl, rfl, Or.inl rfl⟩, h⟩
  · right
    refine ⟨by simp [eventcb_resumes, hEOF], ?_⟩
    rw [eventcb_eof_eq env feed s events p d hd hEOF] at h
    by_cases hh : d.response_state = IOState.HEADER_COMPLETE
    · rw [if_pos hh] at h
      exact ⟨{ evbuffer_add s (if d.chunked_response then "0\r\n\r\n".toList else []) with
              should_close_after_write :=
                if d.request_connection_close then true else s.should_close_after_write },
        ⟨rfl, rfl, Or.inl rfl⟩, h⟩
    · rw [if_neg hh] at h
      by_cases hm : d.response_state = IOState.MSG_COMPLETE
      · rw [if_pos hm] at h
        exact ⟨s, ⟨rfl, rfl, Or.inl rfl⟩, h⟩
      · rw [if_neg hm] at h
        exact ⟨(evbuffer_add s (error_reply_bytes env 502)).store p
            { d with response_state := IOState.MSG_COMPLETE },
          ⟨rfl, rfl, Or.inr rfl⟩, h⟩

theorem readcb_cases (env : Env) (parse : Bridge → Ptr → Option (Bridge × Int)) (feed : Feed)
    (s s3 : Bridge) (p : Ptr)
    (h : https_downstream_readcb env parse feed s p = some s3) :
    ∃ s1 rv d1, parse s p = some (s1, rv) ∧ s1.heap p = some d1
      ∧ ((readcb_resumes parse s p = false
            ∧ (s3 = s1 ∨ s3 = { s1 with handler_deleted := true }))
        ∨ (readcb_resumes parse s p = true
            ∧ ∃ s2, replied s1 p d1 s2 ∧ retire env feed s2 p = some s3)) := by
  unfold https_downstream_readcb at h
  cases hd : s.heap p with
  | none => simp [hd] at h
  | some d =>
    simp only [hd] at h
    cases hp : parse s p with
    | none => simp [hp] at h
    | some r =>
      obtain ⟨s1, rv⟩ := r
      simp only [hp] at h
      cases hd1 : s1.heap p with
      | none => simp [hd1] at h
      | some d1 =>
        simp only [hd1] at h
        refine ⟨s1, rv, d1, rfl, hd1, ?_⟩
        by_cases hrv : rv = 0
        · simp only [hrv, if_true] at h
          by_cases hm : d1.response_state = IOState.MSG_COMPLETE
          · right
            simp only [hm, if_true] at h
            refine ⟨by simp [readcb_resumes, hp, hd1, hrv, hm], s1, ⟨rfl, rfl, Or.inl rfl⟩, ?_⟩
            cases ht : get_top_downstream s1 with
            | none => simp [ht] at h
            | some top =>
              simp only [ht] at h
              by_cases he : p = top
              · rw [if_pos he] at h
                exact h
              · simp [he] at h
          · left
            simp only [hm, if_false, Option.some.injEq] at h
            exact ⟨by simp [readcb_resumes, hp, hd1, hrv, hm], Or.inl h.symm⟩
        · simp only [hrv, if_false] at h
          by_cases hh : d1.response_state = IOState.HEADER_COMPLETE
          · left
            simp only [hh, if_true, Option.some.injEq] at h
            exact ⟨by simp [readcb_resumes, hp, hd1, hrv, hh], Or.inr h.symm⟩
          · right
            simp only [hh, if_false, error_reply_eq env s1 p d1 502 hd1] at h
            refine ⟨by simp [readcb_resumes, hp, hd1, hrv, hh],
              (evbuffer_add s1 (error_reply_bytes env 502)).store p
                { d1 with response_state := IOState.MSG_COMPLETE },
              ⟨rfl, rfl, Or.inr rfl⟩, ?_⟩
            cases ht : get_top_downstream
                ((evbuffer_add s1 (error_reply_bytes env 502)).store p
                  { d1 with response_state := IOState.MSG_COMPLETE }) with
            | none => simp [ht] at h
            | some top =>
              simp only [ht] at h
              by_cases he : p = top
              · rw [if_pos he] at h
                exact h
              · simp [he] at h

theorem no_regress_after (s s1 s3 : Bridge) (h1 : heap_advances s s1)
    (h2 : no_regress s1 s3) : no_regress s s3 := by
  intro q d d3 hd hd3
  obtain ⟨d1, hd1, r1, r2⟩ := h1.1 q d hd
  obtain ⟨r3, r4⟩ := h2 q d1 d3 hd1 hd3
  exact ⟨le_trans r1 r3, le_trans r2 r4⟩

/-- A retiring handler: the exchange is replied to or not, then retired. -/
theorem replied_retire_inv (env : Env) (loop : Bool) (feed : Feed) (s s1 s3 : Bridge)
    (p : Ptr) (d : Downstream) (ph ph1 : Phase) (hinv : Inv loop (s, ph))
    (hd : s.heap p = some d) (hr : replied s p d s1)
    (hph : phase_after ph feed.calls = some ph1)
    (h : retire env feed s1 p = some s3) :
    Inv loop (s3, ph1) ∧ no_regress s s3 := by
  obtain ⟨i2, i1, j⟩ := hinv
  obtain ⟨a, _, i2', i1', j'⟩ := replied_inv loop s s1 ph p d hd hr i2 i1
    (fun hl => ⟨(j hl).1, (j hl).2.1⟩)
  obtain ⟨hI, hn⟩ := retire_inv env loop feed s1 s3 p ph ph1 i2' i1' j' hph h
  exact ⟨hI, no_regress_after s s1 s3 a hn⟩

/-- Every admissible step keeps `Inv` and moves no exchange backwards. -/
theorem step_inv (env : Env) (loop : Bool) (c c1 : Bridge × Phase) (st : Step)
    (hinv : Inv loop c) (ha : admissible loop c st) (hs : step env c st = some c1) :
    Inv loop c1 ∧ no_regress c.1 c1.1 := by
  obtain ⟨s, ph⟩ := c
  have hinv0 := hinv
  obtain ⟨i2, i1, j⟩ := hinv
  simp only at i2 i1 j
  cases st with
  | hook call =>
    obtain ⟨_, hl⟩ := ha
    simp only [step] at hs
    cases hh : htp_hooks s call with
    | none => simp [hh] at hs
    | some r =>
      cases hn : ph.next call with
      | none => simp [hh, hn] at hs
      | some ph1 =>
        simp only [hh, hn, Option.some.injEq] at hs
        subst hs
        have hinv1 : HookInv loop s ph := ⟨i2, i1, fun h => by simp [hl] at h⟩
        obtain ⟨a, i2', i1', _⟩ := hook_step loop s ph ph1 call r hinv1 hn hh
        exact ⟨⟨i2', i1', fun h => by simp [hl] at h⟩, heap_advances_no_regress s r.1 a⟩
  | read arrived feed =>
    obtain ⟨_, hg⟩ := ha
    simp only [step] at hs
    cases hh : on_read env feed { s with input := s.input ++ arrived } with
    | none => simp [hh] at hs
    | some r =>
      cases hn : phase_after ph feed.calls with
      | none => simp [hh, hn] at hs
      | some ph1 =>
        simp only [hh, hn, Option.some.injEq] at hs
        subst hs
        have hinv1 : HookInv loop { s with input := s.input ++ arrived } ph :=
          ⟨i2, i1, fun h => ⟨(j h).1, (j h).2.1, fun hi => (j h).2.2 hi (hg h)⟩⟩
        obtain ⟨a, hI⟩ := on_read_inv env loop feed _ ph ph1 r hinv1 hn hh
        exact ⟨hI, heap_advances_no_regress _ r.1 a⟩
  | event events p feed =>
    simp only [step] at hs
    cases hh : https_downstream_eventcb env feed s events p with
    | none => simp [hh] at hs
    | some s3 =>
      cases hn : phase_after ph feed.calls with
      | none => simp [hh, hn] at hs
      | some ph1 =>
        simp only [hh, hn, Option.some.injEq] at hs
        subst hs
        cases hd : s.heap p with
        | none => simp [https_downstream_eventcb, hd] at hh
        | some d =>
          rcases eventcb_cases env feed s s3 events p d hd hh with ⟨hres, he⟩ | ⟨hres, s1, hr, hret⟩
          · subst he
            simp only [hres]
            exact ⟨hinv0, heap_advances_no_regress s3 s3 (heap_advances_refl s3)⟩
          · simp only [hres, if_true]
            exact replied_retire_inv env loop feed s s1 s3 p d ph ph1 hinv0 hd hr hn hret
  | readable parse p feed =>
    obtain ⟨_, hwb⟩ := ha
    simp only [step] at hs
    cases hh : https_downstream_readcb env parse feed s p with
    | none => simp [hh] at hs
    | some s3 =>
      cases hn : phase_after ph feed.calls with
      | none => simp [hh, hn] at hs
      | some ph1 =>
        simp only [hh, hn, Option.some.injEq] at hs
        subst hs
        obtain ⟨s1, rv, d1, hp, hd1, hcases⟩ := readcb_cases env parse feed s s3 p hh
        obtain ⟨wq, wn, wr, wlive, wdead⟩ := hwb s p (s1, rv) hp
        simp only at wq wn wr wlive wdead
        have a : heap_advances s s1 := by
          refine ⟨?_, fun q _ hq => wdead q hq, by rw [wn]⟩
          intro q d hd
          obtain ⟨d2, hd2, e1, e2⟩ := wlive q d hd
          exact ⟨d2, hd2, by rw [e1], e2⟩
        have hlast : get_last_downstream s1 = get_last_downstream s := by
          unfold get_last_downstream
          rw [wq]
        have hinv1 : Inv loop (s1, ph) := by
          refine ⟨?_, ?_, ?_⟩
          · intro q hq
            exact wdead q (i2 q (by rw [← wn]; exact hq))
          · intro hhead q dq hl hdq
            rw [hlast] at hl
            cases hsq : s.heap q with
            | none =>
              rw [wdead q hsq] at hdq
              exact Option.noConfusion hdq
            | some d0 =>
              obtain ⟨d2, hd2, e1, _⟩ := wlive q d0 hsq
              have : dq = d2 := Option.some.inj (hdq.symm.trans hd2)
              subst this
              rw [e1]
              exact i1 hhead q d0 hl hsq
          · intro hl
            obtain ⟨j1, j2, j3⟩ := j hl
            refine ⟨?_, by rw [wq]; exact j2, ?_⟩
            · intro q
              show (s1.heap q).isSome = true ↔ q ∈ s1.downstream_queue_
              rw [wq, ← j1 q]
              cases hsq : s.heap q with
              | none => simp [wdead q hsq]
              | some d0 =>
                obtain ⟨d2, hd2, _, _⟩ := wlive q d0 hsq
                simp [hd2]
            · intro hi hre
              show s1.downstream_queue_ = []
              rw [wq]
              exact j3 hi (by rw [← wr]; exact hre)
        rcases hcases with ⟨hres, he⟩ | ⟨hres, s2, hr, hret⟩
        · simp only [hres]
          rcases he with he | he
          · subst he
            exact ⟨hinv1, heap_advances_no_regress s s3 a⟩
          · subst he
            exact ⟨hinv1, heap_advances_no_regress s _ a⟩
        · simp only [hres, if_true]
          obtain ⟨hI, hn3⟩ := replied_retire_inv env loop feed s1 s2 s3 p d1 ph ph1 hinv1 hd1 hr
            hn hret
          exact ⟨hI, no_regress_after s s1 s3 a hn3⟩
  | reply p status_code =>
    simp only [step] at hs
    cases hd : s.heap p with
    | none => simp [error_reply, evbuffer_add, hd] at hs
    | some d =>
      rw [error_reply_eq env s p d status_code hd] at hs
      simp only [Option.some.injEq] at hs
      subst hs
      obtain ⟨a, _, i2', i1', j'⟩ := replied_inv loop s
        ((evbuffer_add s (error_reply_bytes env status_code)).store p
          { d with response_state := IOState.MSG_COMPLETE }) ph p d hd
        ⟨rfl, rfl, Or.inr rfl⟩ i2 i1 (fun hl => ⟨(j hl).1, (j hl).2.1⟩)
      exact ⟨⟨i2', i1', fun hl => ⟨(j' hl).1, (j' hl).2, (j hl).2.2⟩⟩,
        heap_advances_no_regress s _ a⟩

theorem reachable_inv (env : Env) (loop : Bool) (c : Bridge × Phase)
    (h : Reachable env loop c) : Inv loop c := by
  induction h with
  | start =>
    refine ⟨fun _ _ => rfl, fun h => by simp at h, fun _ => ⟨?_, by simp, fun _ _ => rfl⟩⟩
    intro p
    simp
  | next c c1 st _ ha hs ih => exact (step_inv env loop c c1 st ih ha hs).1

theorem live_of_written (env : Env) (s : Bridge) (p : Ptr) (data : Bytes) (status_code : Int)
    (h : (on_downstream_header_complete env s p).isSome = true
      ∨ (on_downstream_body s p data).isSome = true
      ∨ (on_downstream_body_complete s p).isSome = true
      ∨ (error_reply env s p status_code).isSome = true) :
    ∃ d, s.heap p = some d := by
  cases hd : s.heap p with
  | some d => exact ⟨d, rfl⟩
  | none =>
    exfalso
    rcases h with h | h | h | h
    · simp [on_downstream_header_complete, hd] at h
    · simp [on_downstream_body, hd] at h
    · simp [on_downstream_body_complete, hd] at h
    · simp [error_reply, evbuffer_add, hd] at h

/-- C14: from a new connection, over every sequence of callback invocations
(parser callbacks in the order of the request grammar, `on_read` passes,
backend events, backend reads with a well-behaved response parser,
`error_reply`), no step moves the request-state or the response-state of an
exchange backwards in the order INITIAL < HEADER_COMPLETE < MSG_COMPLETE. -/
theorem C14_states_never_regress (env : Env) (loop : Bool) (c c1 : Bridge × Phase)
    (st : Step) (hr : Reachable env loop c) (ha : admissible loop c st)
    (hs : step env c st = some c1) : no_regress c.1 c1.1 :=
  (step_inv env loop c c1 st (reachable_inv env loop c hr) ha hs).2

theorem reachable_config_uploading (loop : Bool) : Reachable sample_env loop config_uploading :=
  Reachable.next ({}, Phase.idle) config_uploading
    (Step.read upload_request partial_upload_feed) Reachable.start ⟨rfl, fun _ => rfl⟩ rfl

/-- C14 at the read that completes an upload: the request-state of the
exchange goes from HEADER_COMPLETE to MSG_COMPLETE. -/
theorem C14_states_never_regress_witness :
    Reachable sample_env false config_uploading
    ∧ admissible false config_uploading (Step.read "def".toList rest_of_upload_feed)
    ∧ step sample_env config_uploading (Step.read "def".toList rest_of_upload_feed)
        = some config_uploaded
    ∧ (config_uploading.1.heap 0).map (fun d => d.request_state)
        = some IOState.HEADER_COMPLETE
    ∧ (config_uploaded.1.heap 0).map (fun d => d.request_state) = some IOState.MSG_COMPLETE
    ∧ no_regress config_uploading.1 config_uploaded.1 :=
  ⟨reachable_config_uploading false, ⟨rfl, fun h => by simp at h⟩, rfl, by decide, by decide,
    C14_states_never_regress sample_env false config_uploading config_uploaded
      (Step.read "def".toList rest_of_upload_feed) (reachable_config_uploading false)
      ⟨rfl, fun h => by simp at h⟩ rfl⟩

/-- In every state the event loop reaches from a new connection the queue
holds at most one exchange, and whenever the framer or `error_reply` writes
for an exchange, that exchange is the front of the queue. -/
theorem queue_at_most_one (env : Env) (c : Bridge × Phase)
    (hr : Reachable env true c) :
    c.1.downstream_queue_.length ≤ 1 ∧ written_for_front env c.1 := by
  obtain ⟨_, _, j⟩ := reachable_inv env true c hr
  obtain ⟨j1, j2, _⟩ := j rfl
  refine ⟨j2, ?_⟩
  intro p data status_code hw
  obtain ⟨d, hd⟩ := live_of_written env c.1 p data status_code hw
  have hmem : p ∈ c.1.downstream_queue_ := (j1 p).mp (by simp [hd])
  cases hl : c.1.downstream_queue_ with
  | nil => simp [hl] at hmem
  | cons x rest =>
    rw [hl] at j2 hmem
    cases rest with
    | nil =>
      simp only [List.mem_singleton] at hmem
      simp [get_top_downstream, hl, hmem]
    | cons y ys => simp at j2

/-- C18 fails: after the head and the first body bytes of a request are read
(phase body, queue `[0]`), a backend error for that exchange retires it; the
state reached has the request still mid-parse and the queue empty, and the
next body callback, which takes the back of the queue, is undefined. -/
theorem C18_queue_empty_mid_request :
    Reachable sample_env true config_retired_early
    ∧ (config_uploading.2, config_uploading.1.downstream_queue_,
        (config_uploading.1.heap 0).map (fun d => d.request_state))
      = (Phase.body, [0], some IOState.HEADER_COMPLETE)
    ∧ (config_retired_early.2, config_retired_early.1.downstream_queue_,
        get_last_downstream config_retired_early.1, config_retired_early.1.read_enabled)
      = (Phase.body, [], none, true)
    ∧ (on_read sample_env rest_of_upload_feed
        { config_retired_early.1 with input := "def".toList }).isNone = true
    ∧ (htp_bodycb config_retired_early.1 "def".toList).isNone = true := by
  refine ⟨?_, by decide, by decide, by decide, by decide⟩
  exact Reachable.next config_uploading config_retired_early
    (Step.event BEV_EVENT_ERROR 0 {}) (reachable_config_uploading true) rfl rfl

theorem on_downstream_header_complete_frame (env : Env) (s : Bridge) (p : Ptr)
    (r : Bridge × Int) (h : on_downstream_header_complete env s p = some r) :
    r.1.heap = s.heap ∧ r.1.downstream_queue_ = s.downstream_queue_
    ∧ r.1.next_ptr = s.next_ptr ∧ r.1.read_enabled = s.read_enabled := by
  unfold on_downstream_header_complete at h
  cases hd : s.heap p with
  | none => simp [hd] at h
  | some d =>
    simp only [hd, Option.some.injEq] at h
    subst h
    exact ⟨rfl, rfl, rfl, rfl⟩

theorem on_downstream_body_complete_frame (s : Bridge) (p : Ptr)
    (r : Bridge × Int) (h : on_downstream_body_complete s p = some r) :
    r.1.heap = s.heap ∧ r.1.downstream_queue_ = s.downstream_queue_
    ∧ r.1.next_ptr = s.next_ptr ∧ r.1.read_enabled = s.read_enabled := by
  cases hd : s.heap p with
  | none => simp [on_downstream_body_complete, hd] at h
  | some d =>
    rw [on_downstream_body_complete_eq s p d hd] at h
    simp only [Option.some.injEq] at h
    subst h
    exact ⟨rfl, rfl, rfl, rfl⟩

theorem parse_complete_then_fail_well_behaved (env : Env) :
    parse_well_behaved (parse_complete_then_fail env) := by
  intro s p r h
  unfold parse_complete_then_fail at h
  cases hd : s.heap p with
  | none => simp [hd] at h
  | some d =>
    simp only [hd] at h
    cases hA : on_downstream_header_complete env (s.store p (empty_response d)) p with
    | none => simp [hA] at h
    | some rA =>
      obtain ⟨a1, a2, a3, a4⟩ := on_downstream_header_complete_frame env _ p rA hA
      simp only [hA] at h
      cases hB : on_downstream_body_complete rA.1 p with
      | none => simp [hB] at h
      | some rB =>
        obtain ⟨b1, b2, b3, b4⟩ := on_downstream_body_complete_frame _ p rB hB
        simp only [hB, Option.some.injEq] at h
        subst h
        have hheap : ∀ q, q ≠ p → rB.1.heap q = s.heap q := by
          intro q hqe
          rw [b1, a1]
          simp [Bridge.store, hqe]
        refine ⟨?_, ?_, ?_, ?_, ?_⟩
        · show rB.1.downstream_queue_ = s.downstream_queue_
          rw [b2, a2]; rfl
        · show rB.1.next_ptr = s.next_ptr
          rw [b3, a3]; rfl
        · show rB.1.read_enabled = s.read_enabled
          rw [b4, a4]; rfl
        · intro q dq hdq
          by_cases hqe : q = p
          · subst hqe
            have : dq = d := Option.some.inj (hdq.symm.trans hd)
            subst this
            refine ⟨{ empty_response dq with response_state := IOState.MSG_COMPLETE },
              by simp [Bridge.store], rfl, ?_⟩
            cases dq.response_state <;> simp [IOState.rank]
          · refine ⟨dq, ?_, rfl, le_refl _⟩
            show (if q = p then _ else rB.1.heap q) = some dq
            simp only [hqe, if_false]
            rw [hheap q hqe]
            exact hdq
        · intro q hq
          have hqe : q ≠ p := by
            intro e
            rw [e, hd] at hq
            exact Option.noConfusion hq
          show (if q = p then _ else rB.1.heap q) = none
          simp only [hqe, if_false]
          rw [hheap q hqe]
          exact hq

theorem reachable_config_waiting (loop : Bool) : Reachable sample_env loop config_waiting :=
  Reachable.next ({}, Phase.idle) config_waiting
    (Step.read pipelined_request pipelined_request_feed)
    Reachable.start ⟨rfl, fun _ => rfl⟩ rfl

theorem reachable_config_waiting_malformed (loop : Bool) :
    Reachable sample_env loop config_waiting_malformed :=
  Reachable.next ({}, Phase.idle) config_waiting_malformed
    (Step.read (pipelined_request ++ "BAD\r\n".toList) pipelined_request_feed)
    Reachable.start ⟨rfl, fun _ => rfl⟩ rfl

/-- C16 fails on `https_downstream_readcb`: in a state the event loop
reaches, a backend read whose response parser passes on a complete response
(response-state MSG_COMPLETE) and then fails is answered with a 502 reply,
written to the client after the complete response. -/
theorem C16_reply_after_complete_response :
    Reachable sample_env true config_waiting
    ∧ parse_well_behaved (parse_complete_then_fail sample_env)
    ∧ (config_waiting.1.downstream_queue_, config_waiting.1.output,
        (config_waiting.1.heap 0).map (fun d => d.response_state))
      = ([0], [], some IOState.INITIAL)
    ∧ (parse_complete_then_fail sample_env config_waiting.1 0).map
        (fun r => (r.1.output, (r.1.heap 0).map (fun d => d.response_state), r.2))
      = some ("HTTP/1.1 200 OK\r\nContent-Length: 0\r\n\r\n".toList,
              some IOState.MSG_COMPLETE, -1)
    ∧ (https_downstream_readcb sample_env (parse_complete_then_fail sample_env) {}
          config_waiting.1 0).map (fun s1 => s1.output)
      = some ("HTTP/1.1 200 OK\r\nContent-Length: 0\r\n\r\n".toList
                ++ error_reply_bytes sample_env 502) := by
  refine ⟨reachable_config_waiting true, parse_complete_then_fail_well_behaved sample_env,
    by decide, by decide, by decide⟩

/-- C19 fails: in a state the event loop reaches, with malformed bytes
buffered behind a complete request, the parse pass that `resume_read` runs
after the timeout of the exchange yields `SHRPX_ERR_HTTP_PARSE`, and the
handler ends exactly as it does after a parse pass without error: reads
enabled, the client handler alive, nothing recorded. -/
theorem C19_parse_failure_discarded :
    Reachable sample_env true config_waiting_malformed
    ∧ (config_waiting_malformed.1.downstream_queue_, config_waiting_malformed.1.input,
        config_waiting_malformed.1.read_enabled) = ([0], "BAD\r\n".toList, false)
    ∧ ((((error_reply sample_env config_waiting_malformed.1 0 504).bind pop_downstream).bind
          (fun s => s.delete 0)).bind
        (fun s => on_read sample_env malformed_feed { s with read_enabled := true })).map
        Prod.snd
      = some sample_env.SHRPX_ERR_HTTP_PARSE
    ∧ https_downstream_eventcb sample_env malformed_feed config_waiting_malformed.1
        BEV_EVENT_TIMEOUT 0
      = https_downstream_eventcb sample_env { nread := 3 } config_waiting_malformed.1
        BEV_EVENT_TIMEOUT 0
    ∧ (https_downstream_eventcb sample_env malformed_feed config_waiting_malformed.1
          BEV_EVENT_TIMEOUT 0).map
        (fun s1 => (s1.input, s1.read_enabled, s1.handler_deleted, s1.downstream_queue_))
      = some ("\r\n".toList, true, false, []) := by
  refine ⟨reachable_config_waiting_malformed true, by decide, by decide, ?_, by decide⟩
  unfold https_downstream_eventcb retire
  simp only [malformed_feed, resume_read_drops_parse_failure]

/-! ## C3: the exchange a backend handler retires -/

end shrpx
